import Mathlib

/-!
Verification of the PlaylistFixer core against its specification.

Strings are modelled as `List Char` (the sequence of code points of a Python
string).  Python `None` for optional strings is modelled with `Option`.
Floating point similarity scores are modelled exactly as rationals: every
score produced by the code is a ratio of two small naturals, and the
thresholds 0.85 and 0.90 are compared against such ratios.

Modelled source files:
  * core/vendor/repair_playlist_safe_v4.py  (norm, tokens, jaccard,
    parse_extinf, candidate_pairs_from_display, repair_playlist with its
    inner find_matches and duration-bucket index)
  * core/runner.py  (canonical_key, _read_report_rows, _classify_for_ui,
    export_fixed_multi, scan_index aggregation)
  * core/vendor/playlist_scan_safe.py  (scan_folder, scan_multiple_roots)
-/

/-- Code points of a string literal, the representation used throughout. -/
def cs (s : String) : List Char := s.data

/-- Whitespace as recognised by Python `str.strip` and `\s` on ASCII input. -/
def pyIsSpace (c : Char) : Bool :=
  c == ' ' || c == '\t' || c == '\n' || c == '\r' || c == '\x0B' || c == '\x0C'

/-- Python `str.strip()`: drop whitespace from both ends. -/
def pyStrip (s : List Char) : List Char :=
  ((s.dropWhile pyIsSpace).reverse.dropWhile pyIsSpace).reverse

/- ------------------------------------------------------------------ -/
/- norm  (repair_playlist_safe_v4.py lines 15-32)                      -/
/- ------------------------------------------------------------------ -/

/-- `_DASHES`: en and em dash become an ASCII hyphen. -/
def dashFix (c : Char) : Char := if c == '–' || c == '—' then '-' else c

/-- Apostrophe and quote variants; the code first maps the curly ones to the
straight apostrophe and then deletes the straight apostrophe, so the net
effect is deletion of all five characters. -/
def apoChar (c : Char) : Bool :=
  c == '’' || c == '‘' || c == Char.ofNat 96 || c == '´' || c == Char.ofNat 39

/-- `_BAD_PUNCT`: middle dot, bullet and pipe become a space. -/
def badPunctFix (c : Char) : Char := if c == '·' || c == '•' || c == '|' then ' ' else c

/-- Underscore and the full-width space become an ASCII space. -/
def underscoreFix (c : Char) : Char := if c == '_' || c == '　' then ' ' else c

/-- Word character for the regex boundary `\b` (ASCII fragment of `\w`). -/
def isWord (c : Char) : Bool := c.isAlphanum || c == '_'

/-- Try the alternative `ft\.` of `_FEAT` at the head of `s`; the trailing
`\b` holds only when the dot is followed by a word character. -/
def featTryFT : List Char → Option (List Char)
  | a :: b :: c :: rest =>
    if a.toLower == 'f' && b.toLower == 't' && c == '.' then
      match rest with
      | g :: _ => if isWord g then some rest else none
      | [] => none
    else none
  | _ => none

/-- Try `feat\.` then `ft\.` of `_FEAT` at the head of `s`; returns the
suffix after the consumed token when the match (with trailing `\b`)
succeeds. -/
def featTry (s : List Char) : Option (List Char) :=
  match s with
  | a :: b :: c :: d :: e :: rest =>
    if a.toLower == 'f' && b.toLower == 'e' && c.toLower == 'a' && d.toLower == 't'
        && e == '.' then
      match rest with
      | g :: _ => if isWord g then some rest else featTryFT s
      | [] => featTryFT s
    else featTryFT s
  | _ => featTryFT s

/-- One left-to-right pass of `_FEAT.sub("feat", s)`.  `prevW` records
whether the character of the ORIGINAL string before the current scan
position is a word character (for the leading `\b`): `re.sub` evaluates
boundaries against the original string, never the replacement text.  Both
tokens end in a dot, which is not a word character, so scanning resumes
after a replacement with `prevW = false`.  Fuel keeps the recursion
structural; `s.length` fuel is always enough since every step consumes at
least one character. -/
def featGoF : Nat → Bool → List Char → List Char
  | 0, _, s => s
  | fuel+1, prevW, s =>
    match s with
    | [] => []
    | c :: rest =>
      if prevW then c :: featGoF fuel (isWord c) rest
      else
        match featTry (c :: rest) with
        | some r => 'f' :: 'e' :: 'a' :: 't' :: featGoF fuel false r
        | none => c :: featGoF fuel (isWord c) rest

/-- `_FEAT.sub("feat", s)`. -/
def featSub (s : List Char) : List Char := featGoF s.length false s

/-- Opening bracket of `_REMOVE_PARENS`. -/
def isOpenB (c : Char) : Bool := c == '(' || c == '[' || c == Char.ofNat 123

/-- Closing bracket of `_REMOVE_PARENS`. -/
def isCloseB (c : Char) : Bool := c == ')' || c == ']' || c == Char.ofNat 125

/-- Suffix after the first closing bracket (the lazy `.*?`). -/
def afterClose : List Char → List Char
  | [] => []
  | c :: rest => if isCloseB c then rest else afterClose rest

/-- Leftmost match of `_REMOVE_PARENS`: the first opening bracket that has
some closing bracket after it starts the match, which ends at the first
closing bracket after it.  Returns the text before the match and the text
after it. -/
def spanSplit : List Char → Option (List Char × List Char)
  | [] => none
  | c :: rest =>
    if isOpenB c && rest.any isCloseB then some ([], afterClose rest)
    else
      match spanSplit rest with
      | some (pre, suf) => some (c :: pre, suf)
      | none => none

/-- `_REMOVE_PARENS.sub("", s)` with fuel (every removal consumes at least
two characters, so `s.length` fuel is always enough). -/
def removeSpansF : Nat → List Char → List Char
  | 0, s => s
  | fuel+1, s =>
    match spanSplit s with
    | none => s
    | some (pre, suf) => pre ++ removeSpansF fuel suf

/-- `_REMOVE_PARENS.sub("", s)`: strip all bracketed spans. -/
def removeSpans (s : List Char) : List Char := removeSpansF s.length s

/-- `_MULTI_SPACE.sub(" ", s)`: each maximal whitespace run becomes one
space.  `prevWs` records whether the previous character was whitespace. -/
def collapseGo : Bool → List Char → List Char
  | _, [] => []
  | prevWs, c :: rest =>
    if pyIsSpace c then
      if prevWs then collapseGo true rest else ' ' :: collapseGo true rest
    else c :: collapseGo false rest

/-- The character pipeline of `norm` before the regex passes: strip,
dash unification, apostrophe deletion, separator punctuation, underscore
and full-width space, lowercase. -/
def normChars (s0 : List Char) : List Char :=
  ((((((pyStrip s0).map dashFix).filter (fun c => !apoChar c)).map badPunctFix).map
    underscoreFix).map Char.toLower)

/-- The body of `norm` on a present string. -/
def normBody (s0 : List Char) : Option (List Char) :=
  if s0.isEmpty then none
  else
    let s9 := pyStrip (collapseGo false (removeSpans (featSub (normChars s0))))
    if s9.isEmpty then none else some s9

/-- `norm` from repair_playlist_safe_v4.py lines 15-32. -/
def norm : Option (List Char) → Option (List Char)
  | none => none
  | some s0 => normBody s0

example : norm (some (cs "  He’s  GREAT (Remastered) ")) = some (cs "hes great") := by rfl
example : norm (some (cs "feat.(a)b")) = some (cs "feat.b") := by rfl
example : norm (norm (some (cs "feat.(a)b"))) = some (cs "featb") := by rfl
example : norm (some (cs "A feat.B")) = some (cs "a featb") := by rfl
example : featSub (cs "feat.feat.x") = cs "featfeatx" := by rfl
example : norm (some (cs "feat.feat.x")) = some (cs "featfeatx") := by rfl
example : norm (some (cs "")) = none := by rfl

/- ------------------------------------------------------------------ -/
/- tokens / jaccard  (repair_playlist_safe_v4.py lines 34-47)          -/
/- ------------------------------------------------------------------ -/

/-- Separator class of the `tokens` split regex. -/
def tokSep (c : Char) : Bool :=
  c == ' ' || c == '\t' || c == '/' || c == '\\' || c == '-' || c == ':'
    || c == ',' || c == ';' || c == '.' || c == '!' || c == '?'

/-- Split a character list at every character satisfying `p`; pieces may be
empty (like `re.split` on single separators; runs of separators produce
empty pieces which the caller filters away, so this is equivalent to
splitting on `[class]+`). -/
def splitAny (p : Char → Bool) : List Char → List (List Char)
  | [] => [[]]
  | c :: rest =>
    match splitAny p rest with
    | [] => [[]]
    | h :: t => if p c then [] :: h :: t else (c :: h) :: t

/-- `tokens` from repair_playlist_safe_v4.py lines 34-39. -/
def tokens (s : Option (List Char)) : Finset (List Char) :=
  match s with
  | none => ∅
  | some l =>
    if l.isEmpty then ∅
    else ((splitAny tokSep l).filter (fun p => !p.isEmpty)).toFinset

/-- `jaccard` from repair_playlist_safe_v4.py lines 41-47, with the float
ratio modelled exactly as a rational (`mkRat inter union`). -/
def jaccard (a b : Option (List Char)) : ℚ :=
  let ta := tokens a
  let tb := tokens b
  if ta = ∅ ∨ tb = ∅ then 0
  else
    let inter := (ta ∩ tb).card
    let union := (ta ∪ tb).card
    if union = 0 then 0 else mkRat inter union

example : jaccard (some (cs "hello world")) (some (cs "world hello")) = 1 := by decide
example : jaccard (some (cs "-")) (some (cs "-")) = 0 := by decide
example : jaccard (some (cs "a b")) (some (cs "a c")) = mkRat 1 3 := by decide

/- ------------------------------------------------------------------ -/
/- parse_extinf  (repair_playlist_safe_v4.py lines 49-58)              -/
/- ------------------------------------------------------------------ -/

/-- Decimal value of a digit run. -/
def digitsVal (ds : List Char) : Int :=
  ds.foldl (fun acc c => acc * 10 + (c.toNat - '0'.toNat : Int)) 0

/-- Parse `#EXTINF:(-?\d+)\s*,\s*(.*)$` against the stripped line.
Returns (duration, display) with both absent when the regex does not
match. -/
def parse_extinf (line : List Char) : Option Int × Option (List Char) :=
  let s := pyStrip line
  if (cs "#EXTINF:").isPrefixOf s then
    let rest := s.drop 8
    let neg := rest.take 1 == cs "-"
    let rest1 := if neg then rest.drop 1 else rest
    let ds := rest1.takeWhile (·.isDigit)
    if ds.isEmpty then (none, none)
    else
      let rest2 := (rest1.drop ds.length).dropWhile pyIsSpace
      match rest2 with
      | ',' :: tail =>
        let disp := pyStrip (tail.dropWhile pyIsSpace)
        (some (if neg then -(digitsVal ds) else digitsVal ds), some disp)
      | _ => (none, none)
  else (none, none)

example : parse_extinf (cs "#EXTINF:200,Title - Artist") =
    (some 200, some (cs "Title - Artist")) := by rfl
example : parse_extinf (cs "#EXTINF:-1,X") = (some (-1), some (cs "X")) := by rfl
example : parse_extinf (cs "#EXTINF:200,") = (some 200, some []) := by rfl
example : parse_extinf (cs "/some/path.mp3") = (none, none) := by rfl
example : parse_extinf (cs "#EXTINF:abc,X") = (none, none) := by rfl

/- ------------------------------------------------------------------ -/
/- candidate_pairs_from_display  (lines 60-122)                        -/
/- ------------------------------------------------------------------ -/

/-- A separator match of `\s+-\s+` at the head of `s`: at least one
whitespace character (taken greedily), a hyphen, then at least one
whitespace character (taken greedily).  Returns the suffix after the
separator. -/
def sepMatch (s : List Char) : Option (List Char) :=
  let r1 := s.takeWhile pyIsSpace
  if r1.isEmpty then none
  else
    match s.drop r1.length with
    | '-' :: rest2 =>
      let r2 := rest2.takeWhile pyIsSpace
      if r2.isEmpty then none else some (rest2.drop r2.length)
    | _ => none

/-- `re.split(r"\s+-\s+", s)`: scan left to right, splitting at each
leftmost separator match.  `cur` accumulates the current piece in
reverse. -/
def splitDashF : Nat → List Char → List Char → List (List Char)
  | 0, cur, s => [cur.reverse ++ s]
  | fuel+1, cur, s =>
    match s with
    | [] => [cur.reverse]
    | c :: rest =>
      match sepMatch s with
      | some r => cur.reverse :: splitDashF fuel [] r
      | none => splitDashF fuel (c :: cur) rest

/-- Split on the pattern `\s+-\s+`. -/
def splitDash (s : List Char) : List (List Char) := splitDashF s.length [] s

example : splitDash (cs "a - b - c") = [cs "a", cs "b", cs "c"] := by rfl
example : splitDash (cs "a-b") = [cs "a-b"] := by rfl
example : splitDash (cs "a -  - b") = [cs "a", cs "- b"] := by rfl

/-- `" - ".join`. -/
def joinDash (ps : List (List Char)) : List Char := List.intercalate (cs " - ") ps

/-- De-duplication loop of candidate_pairs_from_display lines 113-122:
keep a pair only if its title is non-empty and the (title, artist) pair has
not been seen before, preserving order. -/
def dedupPairs (seen : List (List Char × Option (List Char))) :
    List (List Char × Option (List Char)) → List (List Char × Option (List Char))
  | [] => []
  | (t, a) :: rest =>
    if t.isEmpty || seen.contains (t, a) then dedupPairs seen rest
    else (t, a) :: dedupPairs ((t, a) :: seen) rest

/-- `candidate_pairs_from_display` from repair_playlist_safe_v4.py lines
60-122.  An artist of `none` marks a title-only pair. -/
def candidate_pairs (disp : List Char) : List (List Char × Option (List Char)) :=
  if disp.isEmpty then []
  else
    let disp2 := pyStrip (disp.map dashFix)
    let raw_parts := ((splitDash disp2).map pyStrip).filter (fun p => !p.isEmpty)
    let parts := raw_parts.filterMap (fun p => norm (some p))
    if parts.isEmpty then []
    else
      let pairs :=
        match parts with
        | [p] => [(p, (none : Option (List Char)))]
        | [a, b] => [(a, some b), (b, some a)]
        | _ =>
          [(parts.getD 1 [], some (parts.getD 0 [])),
           (joinDash (parts.drop 1), some (parts.getD 0 [])),
           (joinDash (parts.dropLast), some (parts.getLastD [])),
           (joinDash parts, none),
           (joinDash parts.dropLast, none),
           (parts.getD 1 [], none)]
      dedupPairs [] pairs

example : candidate_pairs (cs "Title - Artist") =
    [(cs "title", some (cs "artist")), (cs "artist", some (cs "title"))] := by rfl
example : candidate_pairs (cs "OnlyTitle") = [(cs "onlytitle", none)] := by rfl
example : candidate_pairs (cs "A - B - C") =
    [(cs "b", some (cs "a")), (cs "b - c", some (cs "a")),
     (cs "a - b", some (cs "c")), (cs "a - b - c", none),
     (cs "a - b", none), (cs "b", none)] := by rfl

/- ------------------------------------------------------------------ -/
/- Index and find_matches  (repair_playlist_safe_v4.py lines 128-193)  -/
/- ------------------------------------------------------------------ -/

/-- One record of the music_index.json array, as consumed by
repair_playlist (fields may be missing or null). -/
structure RawItem where
  title : Option (List Char)
  artist : Option (List Char)
  duration : Option Int
  path : Option (List Char)
deriving DecidableEq

/-- One entry of a duration bucket (repair_playlist lines 149-154):
normalized title and artist, integer duration, original path. -/
structure Entry where
  title : List Char
  artist : List Char
  duration : Int
  path : List Char
deriving DecidableEq

/-- The bucket construction of repair_playlist lines 141-154 in insertion
order: items whose normalized title or artist is absent, whose duration is
missing, or whose path is missing or empty are skipped. -/
def buckets (idx : List RawItem) : List (Int × Entry) :=
  idx.filterMap fun (it : RawItem) =>
    match norm it.title, norm it.artist, it.duration, it.path with
    | some t, some a, some d, some p =>
      if p.isEmpty then none else some (d, ⟨t, a, d, p⟩)
    | _, _, _, _ => none

/-- `by_dur.get(d, [])`: the entries of bucket `d` in insertion order. -/
def byDurGet (idx : List RawItem) (d : Int) : List Entry :=
  (buckets idx).filterMap fun ke => if ke.1 = d then some ke.2 else none

/-- The candidate list of find_matches lines 163-165: buckets
`dur - dur_tol` through `dur + dur_tol` concatenated. -/
def candList (idx : List RawItem) (durTol : Nat) (dur : Int) : List Entry :=
  (List.range (2 * durTol + 1)).flatMap fun k => byDurGet idx (dur - durTol + k)

/-- Exact-tier predicate of find_matches lines 171-174. -/
def exactPred (titleN : List Char) (artistN : Option (List Char)) (s : Entry) : Bool :=
  s.title == titleN &&
    (match artistN with
     | none => true
     | some a => s.artist == a)

/-- Fuzzy-tier predicate of find_matches lines 181-191. -/
def fuzzyPred (titleN : List Char) (artistN : Option (List Char)) (s : Entry) : Bool :=
  match artistN with
  | some a => s.artist == a && decide (mkRat 85 100 ≤ jaccard (some s.title) (some titleN))
  | none => decide (mkRat 90 100 ≤ jaccard (some s.title) (some titleN))

/-- `find_matches` from repair_playlist_safe_v4.py lines 156-193. -/
def find_matches (idx : List RawItem) (durTol : Nat)
    (titleN : Option (List Char)) (artistN : Option (List Char)) (dur : Int) :
    List Entry :=
  let cand := candList idx durTol dur
  let titleFalsy := match titleN with | none => true | some t => t.isEmpty
  if cand.isEmpty || titleFalsy then []
  else
    match titleN with
    | none => []
    | some t =>
      let exact := cand.filter (exactPred t artistN)
      if exact.length == 1 then exact
      else if exact.length > 1 then exact
      else cand.filter (fuzzyPred t artistN)

/- ------------------------------------------------------------------ -/
/- repair_playlist main loop  (lines 195-310)                          -/
/- ------------------------------------------------------------------ -/

/-- A report row: status, extinf_duration, extinf_display, original_path,
written_path, notes (lines 220, 228, 260, 266, 270). -/
structure Row where
  status : List Char
  dur : Option Int
  disp : Option (List Char)
  original : List Char
  written : List Char
  notes : List Char
deriving DecidableEq

/-- Match accumulation of repair_playlist lines 236-243 (and 248-254 when
`forceNone` is set): for each pair in order, run find_matches; the seen-path
set is computed once per pair from the matches accumulated so far, so
duplicates arising within a single result list are all appended. -/
def accumPairs (idx : List RawItem) (durTol : Nat) (dur : Int) (forceNone : Bool)
    (acc : List Entry) :
    List (List Char × Option (List Char)) → List Entry
  | [] => acc
  | (t, a) :: ps =>
    let ms := find_matches idx durTol (some t) (if forceNone then none else a) dur
    let acc' :=
      if ms.isEmpty then acc
      else
        let seen := acc.map (fun m => m.path)
        acc ++ ms.filter (fun m => !seen.contains m.path)
    accumPairs idx durTol dur forceNone acc' ps

/-- The accumulated match list for one EXTINF unit (lines 232-254): all
pairs in generation order, then, only when nothing was found and the pair
list is non-empty, all pairs again with the artist forced absent. -/
def allMatchesFor (idx : List RawItem) (durTol : Nat) (dur : Int)
    (pairs : List (List Char × Option (List Char))) : List Entry :=
  let m1 := accumPairs idx durTol dur false [] pairs
  if m1.isEmpty && !pairs.isEmpty then accumPairs idx durTol dur true [] pairs
  else m1

/-- `" | ".join` of the first five candidate paths (line 265). -/
def candNote (ms : List Entry) : List Char :=
  List.intercalate (cs " | ") ((ms.take 5).map (fun m => m.path))

/-- Processing of one EXTINF unit (repair_playlist lines 209-272); `ex` is
the `os.path.exists` oracle.  The emitted path line always equals the
written_path column of the produced row. -/
def handleUnit (ex : List Char → Bool) (idx : List RawItem) (durTol : Nat)
    (line path : List Char) : Row :=
  let pe := parse_extinf line
  let dur := pe.1
  let disp := pe.2
  if ex path then ⟨cs "KEPT", dur, disp, path, path, []⟩
  else
    let durBad := match dur with | none => true | some d => d < 0
    let dispEmpty := match disp with | none => true | some l => l.isEmpty
    if durBad || dispEmpty then
      ⟨cs "FAILED_NO_EXTINF", dur, disp, path, path, cs "no duration or display"⟩
    else
      match dur, disp with
      | some d, some dsp =>
        let pairs := candidate_pairs dsp
        let allM := allMatchesFor idx durTol d pairs
        if allM.length == 1 then
          ⟨cs "REPAIRED", dur, disp, path, (allM.headD ⟨[], [], 0, []⟩).path, []⟩
        else if allM.length > 1 then
          ⟨cs "AMBIGUOUS", dur, disp, path, path, candNote allM⟩
        else
          ⟨cs "FAILED", dur, disp, path, path, cs "no match"⟩
      | _, _ => ⟨cs "FAILED", dur, disp, path, path, cs "no match"⟩

/-- The accumulated result of the repair loop. -/
structure RepairResult where
  outLines : List (List Char)
  rows : List Row
  total : Nat
  kept : Nat
  repaired : Nat
  ambiguous : Nat
  failed : Nat
deriving DecidableEq

/-- Pass a non-unit line through (loop lines 207 and 273-274). -/
def passLine (line : List Char) (r : RepairResult) : RepairResult :=
  ⟨line :: r.outLines, r.rows, r.total, r.kept, r.repaired, r.ambiguous, r.failed⟩

/-- Add one EXTINF unit in front of a result: the EXTINF line, the emitted
path line (always the written_path of the row), the report row and the
counter update (lines 209-272). -/
def addUnit (line : List Char) (row : Row) (r : RepairResult) : RepairResult :=
  { outLines := line :: row.written :: r.outLines
    rows := row :: r.rows
    total := r.total + 1
    kept := r.kept + (if row.status == cs "KEPT" then 1 else 0)
    repaired := r.repaired + (if row.status == cs "REPAIRED" then 1 else 0)
    ambiguous := r.ambiguous + (if row.status == cs "AMBIGUOUS" then 1 else 0)
    failed := r.failed +
      (if row.status == cs "FAILED" || row.status == cs "FAILED_NO_EXTINF" then 1
       else 0) }

/-- Is this line the start of an EXTINF unit (line 209, first conjunct)? -/
def isEXTINF (line : List Char) : Bool := (cs "#EXTINF").isPrefixOf line

/-- The while loop of repair_playlist lines 204-274.  A line starting with
`#EXTINF` that is the last line of the file is not a unit (`i + 1 <
len(lines)` fails) and is passed through. -/
def repairGo (ex : List Char → Bool) (idx : List RawItem) (durTol : Nat) :
    List (List Char) → RepairResult
  | [] => ⟨[], [], 0, 0, 0, 0, 0⟩
  | [line] => passLine line ⟨[], [], 0, 0, 0, 0, 0⟩
  | line :: nxt :: rest =>
    if isEXTINF line then
      addUnit line (handleUnit ex idx durTol line nxt) (repairGo ex idx durTol rest)
    else passLine line (repairGo ex idx durTol (nxt :: rest))

/-- `repair_playlist` over in-memory lines (newlines already removed, as
every access in the source strips them): the rewritten lines, the report
rows and the summary counters. -/
def repair_playlist (ex : List Char → Bool) (idx : List RawItem) (durTol : Nat)
    (lines : List (List Char)) : RepairResult :=
  repairGo ex idx durTol lines

/- ------------------------------------------------------------------ -/
/- canonical_key  (core/runner.py lines 29-50)                         -/
/- ------------------------------------------------------------------ -/

/-- First index at which `needle` occurs in `hay`. -/
def findSub (hay needle : List Char) : Option Nat :=
  (List.range (hay.length + 1)).find? (fun i => needle.isPrefixOf (hay.drop i))

/-- Python `needle in hay` substring containment. -/
def hasSub (hay needle : List Char) : Bool := (findSub hay needle).isSome

/-- The generated-name markers stripped from the front of a stem, in the
order the source tries them (each is tried once, sequentially). -/
def genMarkers : List (List Char) :=
  [cs "__tmp_fixed_", cs "draft_fixed_", cs "fixed_"]

/-- The affix-stripping core of canonical_key (runner lines 39-47): each
generated-name front marker is tried once in order and stripped when the
stem starts with it, then one trailing `_selected` is stripped. -/
def stripGenerated (stem0 : List Char) : List Char :=
  let s1 := genMarkers.foldl
    (fun st p => if p.isPrefixOf st then st.drop p.length else st) stem0
  if (cs "_selected").isSuffixOf s1
    then s1.take (s1.length - (cs "_selected").length) else s1

/-- `canonical_key` from core/runner.py lines 29-50, on a filename stem:
the stripped stem, or the original stem when stripping leaves nothing. -/
def canonical_key (stem0 : List Char) : List Char :=
  let s3 := pyStrip (stripGenerated stem0)
  if s3.isEmpty then stem0 else s3

/-- `Path(name).stem`: the filename without its final extension (a lone
leading dot is not an extension). -/
def stemOf (name : List Char) : List Char :=
  let r := name.reverse
  let pre := r.takeWhile (fun c => !(c == '.'))
  if pre.length == r.length then name
  else if pre.length + 1 == r.length then name
  else (r.drop (pre.length + 1)).reverse

example : canonical_key (stemOf (cs "15.m3u")) = cs "15" := by rfl
example : canonical_key (stemOf (cs "fixed_15.m3u")) = cs "15" := by rfl
example : canonical_key (stemOf (cs "fixed_15_selected.m3u")) = cs "15" := by rfl
example : canonical_key (stemOf (cs "__tmp_fixed_15.m3u")) = cs "15" := by rfl
example : canonical_key (cs "fixed_") = cs "fixed_" := by rfl

/- ------------------------------------------------------------------ -/
/- Report rows and status classification (core/runner.py 110-264)      -/
/- ------------------------------------------------------------------ -/

/-- A CSV report row as a column-name / value association (csv.DictReader
output; insertion-ordered, unique keys). -/
def CsvRow : Type := List (List Char × List Char)

instance : DecidableEq CsvRow := by
  unfold CsvRow
  infer_instance

/-- `r.get(k)`: the value bound to column `k`, if present. -/
def aget : CsvRow → List Char → Option (List Char)
  | [], _ => none
  | (k0, v0) :: rest, k => if k0 == k then some v0 else aget rest k

/-- `r[k] = v`: replace the binding of `k`, or append it. -/
def aset : CsvRow → List Char → List Char → CsvRow
  | [], k, v => [(k, v)]
  | (k0, v0) :: rest, k, v =>
    if k0 == k then (k, v) :: rest else (k0, v0) :: aset rest k v

/-- Decimal digits of a natural number. -/
def natToChars (n : Nat) : List Char := (toString n).data

/-- `_read_report_rows` (core/runner.py lines 110-123) on already-parsed
CSV rows: records the enumeration index under `_i` and guarantees a
non-empty, stripped `row_index` column. -/
def readRowsGo (i : Nat) : List CsvRow → List CsvRow
  | [] => []
  | r :: rest =>
    let r1 := aset r (cs "_i") (natToChars i)
    let r2 :=
      match aget r1 (cs "row_index") with
      | none => aset r1 (cs "row_index") (natToChars i)
      | some v =>
        if v.isEmpty then aset r1 (cs "row_index") (natToChars i)
        else aset r1 (cs "row_index") (pyStrip v)
    r2 :: readRowsGo (i + 1) rest

/-- `_read_report_rows` over the parsed rows of an existing report file. -/
def read_report_rows (rows : List CsvRow) : List CsvRow := readRowsGo 0 rows

/-- `norm` helper of `_classify_for_ui` (runner line 200): strip then
uppercase. -/
def upNorm (s : List Char) : List Char := (pyStrip s).map Char.toUpper

/-- Resolved keywords (runner line 212; also line 363). -/
def resolvedKeys : List (List Char) :=
  [cs "KEPT", cs "REPAIRED", cs "FIXED", cs "OK", cs "DONE", cs "SUCCESS", cs "RESOLV"]

/-- Ambiguous keywords (runner line 216). -/
def ambiguousKeys : List (List Char) :=
  [cs "AMBIG", cs "MULTI", cs "CONFLICT", cs "DUPLIC", cs "CANDIDATE", cs "MULTIPLE"]

/-- Failed keywords (runner line 220). -/
def failedKeys : List (List Char) :=
  [cs "FAIL", cs "NOT_FOUND", cs "NOTFOUND", cs "MISSING", cs "MISS", cs "ERROR", cs "ERR"]

/-- `classify_status` from core/runner.py lines 203-223: keyword
containment on the upper-cased status, in the priority order resolved,
ambiguous, failed; the empty result stands for unknown. -/
def classify_status (st0 : List Char) : List Char :=
  let st := upNorm st0
  if st.isEmpty then []
  else if resolvedKeys.any (fun k => hasSub st k) then cs "RESOLVED"
  else if ambiguousKeys.any (fun k => hasSub st k) then cs "AMBIGUOUS"
  else if failedKeys.any (fun k => hasSub st k) then cs "FAILED"
  else []

example : classify_status (cs "MULTI_MATCH_3") = cs "AMBIGUOUS" := by rfl
example : classify_status (cs "NOT_FOUND_IN_LIB") = cs "FAILED" := by rfl
example : classify_status (cs "done_ok") = cs "RESOLVED" := by rfl
example : classify_status (cs "PENDING") = [] := by rfl
example : classify_status (cs "KEPT") = cs "RESOLVED" := by rfl

/-- First non-falsy value of a `get`-or-chain (Python `a or b or ""`). -/
def orChain : List (Option (List Char)) → List Char
  | [] => []
  | o :: rest =>
    match o with
    | some v => if v.isEmpty then orChain rest else v
    | none => orChain rest

/-- Strip a run of character `q` from both ends (Python `strip(q)`). -/
def charStrip (q : Char) (s : List Char) : List Char :=
  ((s.dropWhile (fun c => c == q)).reverse.dropWhile (fun c => c == q)).reverse

/-- `Path(p).name` on a POSIX host: the part after the last slash. -/
def baseName (p : List Char) : List Char :=
  (p.reverse.takeWhile (fun c => !(c == '/'))).reverse

/-- One token of `_parse_candidates_from_notes` (runner lines 142-153). -/
def candTokenKeep (part : List Char) : Option (List Char) :=
  let p := charStrip (Char.ofNat 39) (charStrip '"' (pyStrip part))
  if p.isEmpty then none
  else
    let hasSep := hasSub p (cs ":\\") || p.contains '/' || p.contains '\\'
    let nm := baseName p
    let looksLikeFile := nm.contains '.' && decide (3 ≤ nm.length)
    if hasSep && looksLikeFile then some p else none

/-- `_parse_candidates_from_notes` from core/runner.py lines 125-154. -/
def parse_candidates_from_notes (notes0 : List Char) : List (List Char) :=
  let notes := pyStrip notes0
  if notes.isEmpty then []
  else
    let low := notes.map Char.toLower
    let notes1 :=
      match findSub low (cs "candidates:") with
      | some i => pyStrip (notes.drop (i + (cs "candidates:").length))
      | none => notes
    (splitAny (fun c => c == '|') notes1).filterMap candTokenKeep

example : parse_candidates_from_notes
    (cs "candidates: \"/m/a.mp3\" | /m/b.flac | not_a_path") =
    [cs "/m/a.mp3", cs "/m/b.flac"] := by rfl

/-- Signed decimal parse (`int(str)`), absent when malformed. -/
def parseIntOpt (s : List Char) : Option Int :=
  match s with
  | '-' :: ds => if !ds.isEmpty && ds.all Char.isDigit then some (-(digitsVal ds)) else none
  | '+' :: ds => if !ds.isEmpty && ds.all Char.isDigit then some (digitsVal ds) else none
  | ds => if !ds.isEmpty && ds.all Char.isDigit then some (digitsVal ds) else none

/-- One row of the unresolved view (runner lines 249-257), minus the two
playlist-path columns that only echo the arguments. -/
structure UiRow where
  rowIndex : Int
  extinfDisplay : List Char
  originalPath : List Char
  notes : List Char
  candidates : List (List Char)
deriving DecidableEq

/-- Build the unresolved-view row from a report row (runner lines
237-257). -/
def mkUiRow (r : CsvRow) : UiRow :=
  let riRaw := orChain [aget r (cs "row_index"), aget r (cs "_i")]
  let ri :=
    if riRaw.isEmpty then (-1 : Int)
    else (parseIntOpt (pyStrip riRaw)).getD (-1)
  let disp := pyStrip (orChain [aget r (cs "extinf_display"), aget r (cs "extinf")])
  let notes := pyStrip ((aget r (cs "notes")).getD [])
  let orig := pyStrip (orChain [aget r (cs "original_path"), aget r (cs "original")])
  ⟨ri, disp, orig, notes, parse_candidates_from_notes notes⟩

/-- `_classify_for_ui` from core/runner.py lines 187-264: the pair of
(ambiguous, failed) unresolved-view rows.  Rows whose status classifies as
RESOLVED, and rows whose status matches no keyword set, are excluded from
both lists. -/
def classify_for_ui : List CsvRow → List UiRow × List UiRow
  | [] => ([], [])
  | r :: rest =>
    let (amb, fl) := classify_for_ui rest
    let kind := classify_status ((aget r (cs "status")).getD [])
    if kind == cs "RESOLVED" then (amb, fl)
    else if !(kind == cs "AMBIGUOUS" || kind == cs "FAILED") then (amb, fl)
    else
      let row := mkUiRow r
      if kind == cs "AMBIGUOUS" then (row :: amb, fl) else (amb, row :: fl)

/- ------------------------------------------------------------------ -/
/- export_fixed_multi  (core/runner.py lines 335-420)                  -/
/- ------------------------------------------------------------------ -/

/-- The strict final-path whitelist FINAL_KEYS (runner lines 350-361), in
probe order. -/
def FINAL_KEYS : List (List Char) :=
  [cs "written_path", cs "written",
   cs "final_path", cs "final",
   cs "resolved_path", cs "resolved",
   cs "picked_path", cs "picked",
   cs "chosen_path", cs "chosen",
   cs "selected_path", cs "selected",
   cs "output_path", cs "output",
   cs "result_path", cs "result",
   cs "target_path", cs "target",
   cs "matched_path", cs "matched"]

/-- `is_resolved_status` (runner lines 365-367): keyword containment on
the upper-cased status. -/
def is_resolved_status (st : List Char) : Bool :=
  resolvedKeys.any (fun k => hasSub (upNorm st) k)

/-- `pick_final` (runner lines 369-375): first whitelist column whose
stripped value is non-empty. -/
def pickFinalGo (r : CsvRow) : List (List Char) → List Char
  | [] => []
  | k :: ks =>
    match aget r k with
    | some v => let s := pyStrip v; if s.isEmpty then pickFinalGo r ks else s
    | none => pickFinalGo r ks

/-- The final-path probe over the fixed whitelist. -/
def pick_final (r : CsvRow) : List Char := pickFinalGo r FINAL_KEYS

/-- `str(r.get("row_index", r.get("_i",""))).strip()` (runner line 395). -/
def exportRowIndex (r : CsvRow) : List Char :=
  match aget r (cs "row_index") with
  | some v => pyStrip v
  | none => pyStrip ((aget r (cs "_i")).getD [])

/-- `(r.get("original_path") or r.get("original") or "").strip()`. -/
def exportOrig (r : CsvRow) : List Char :=
  pyStrip (orChain [aget r (cs "original_path"), aget r (cs "original")])

/-- `(r.get("status") or "").strip()` (runner line 398). -/
def exportStatus (r : CsvRow) : List Char := pyStrip ((aget r (cs "status")).getD [])

/-- The path line emitted for one report row (runner lines 394-412):
manual selection if its value is truthy, else whitelist path (with original
as fallback) for resolved statuses, else the original path. -/
def exportPathLine (selections : List (List Char × List Char)) (r : CsvRow) :
    List Char :=
  let chosen : Option (List Char) :=
    if (exportRowIndex r).isEmpty then none
    else (selections.lookup (exportRowIndex r))
  let chosenVal := match chosen with | some c => c | none => []
  if !chosenVal.isEmpty then chosenVal
  else if is_resolved_status (exportStatus r) then
    (if (pick_final r).isEmpty then exportOrig r else pick_final r)
  else exportOrig r

/-- The lines contributed by one report row (runner lines 394-412): the
`extinf_line`/`extinf` column when truthy, then exactly one path line. -/
def exportRowLines (selections : List (List Char × List Char)) (r : CsvRow) :
    List (List Char) :=
  let extinfLine := pyStrip (orChain [aget r (cs "extinf_line"), aget r (cs "extinf")])
  (if extinfLine.isEmpty then [] else [extinfLine]) ++ [exportPathLine selections r]

/-- The full final-playlist line list of one export job (runner lines
391-412): the `#EXTM3U` header then the per-row contributions over the
re-read report rows. -/
def export_fixed_lines (selections : List (List Char × List Char))
    (csvRows : List CsvRow) : List (List Char) :=
  cs "#EXTM3U" :: (read_report_rows csvRows).flatMap (exportRowLines selections)

/-- The CSV row written for a report Row by repair_playlist lines 279-282
(header: status, extinf_duration, extinf_display, original_path,
written_path, notes; csv.writer renders None as the empty string). -/
def rowToCsv (r : Row) : CsvRow :=
  [(cs "status", r.status),
   (cs "extinf_duration", match r.dur with | none => [] | some d => (toString d).data),
   (cs "extinf_display", match r.disp with | none => [] | some d => d),
   (cs "original_path", r.original),
   (cs "written_path", r.written),
   (cs "notes", r.notes)]

/- ------------------------------------------------------------------ -/
/- scan_folder / scan_multiple_roots (playlist_scan_safe.py)           -/
/- ------------------------------------------------------------------ -/

/-- SUPPORTED_EXTS from playlist_scan_safe.py lines 32-34. -/
def SUPPORTED_EXTS : List (List Char) :=
  [cs ".flac", cs ".alac", cs ".m4a", cs ".mp4", cs ".aac", cs ".mp3", cs ".ogg",
   cs ".opus", cs ".wav", cs ".aif", cs ".aiff", cs ".aifc", cs ".ape", cs ".wv",
   cs ".dsf", cs ".dff"]

/-- GENERIC_PATH_TOKENS from playlist_scan_safe.py lines 36-41. -/
def GENERIC_PATH_TOKENS : List (List Char) :=
  [cs "music", cs "itunes", cs "itunes media", cs "media", cs "hi-res", cs "hires",
   cs "lossless", cs "lossy", cs "downloads", cs "download", cs "album", cs "albums",
   cs "disc", cs "cd", cs "cd1", cs "cd2", cs "cd3", cs "deluxe", cs "edition",
   cs "remaster", cs "remastered", cs "single", cs "singles", cs "ep",
   cs "compilations", cs "various artists", cs "va", cs "unknown", cs "unknown artist"]

/-- `normalize_token` (lines 51-52): strip, lowercase, collapse
whitespace. -/
def normalize_token (t : List Char) : List Char :=
  collapseGo false ((pyStrip t).map Char.toLower)

/-- Separator class `[\s._-]` of TRACK_PREFIX_RE. -/
def trackSep (c : Char) : Bool := pyIsSpace c || c == '.' || c == '_' || c == '-'

/-- One group `\(?\d{1,3}\)?[\s._-]+` of TRACK_PREFIX_RE at the head of
`s`; digit runs longer than three characters never match (backtracking
would still leave a digit in front of the separator class). -/
def trackGroupTry (s : List Char) : Option (List Char) :=
  let s1 := match s with | '(' :: r => r | _ => s
  let ds := s1.takeWhile Char.isDigit
  if ds.isEmpty || decide (3 < ds.length) then none
  else
    let s2 := s1.drop ds.length
    let s3 := match s2 with | ')' :: r => r | _ => s2
    let seps := s3.takeWhile trackSep
    if seps.isEmpty then none else some (s3.drop seps.length)

/-- The greedy `(group)+` of TRACK_PREFIX_RE. -/
def trackStripGo : Nat → List Char → List Char
  | 0, s => s
  | fuel+1, s =>
    match trackGroupTry s with
    | some r => trackStripGo fuel r
    | none => s

/-- `clean_filename_title` from playlist_scan_safe.py lines 45-49. -/
def clean_filename_title (stem : List Char) : List Char :=
  let s := pyStrip stem
  let s := pyStrip (trackStripGo s.length s)
  pyStrip (collapseGo false s)

example : clean_filename_title (cs "03. My Song") = cs "My Song" := by rfl
example : clean_filename_title (cs "(12) 04 - Tune") = cs "Tune" := by rfl
example : clean_filename_title (cs "1234 Song") = cs "1234 Song" := by rfl

/-- `re.fullmatch(r"(19|20)\d{2}", pt)`. -/
def isYear (pt : List Char) : Bool :=
  pt.length == 4 && pt.all Char.isDigit
    && ((cs "19").isPrefixOf pt || (cs "20").isPrefixOf pt)

/-- The skip-scan of `guess_artist_from_path` (lines 58-72) over the
already-reversed directory segments. -/
def guessArtistGo : List (List Char) → Option (List Char)
  | [] => none
  | p :: rest =>
    let pt := pyStrip p
    if pt.isEmpty then guessArtistGo rest
    else if GENERIC_PATH_TOKENS.contains (normalize_token pt) then guessArtistGo rest
    else if pt.all Char.isDigit then guessArtistGo rest
    else if decide (pt.length ≤ 2) then guessArtistGo rest
    else if isYear pt then guessArtistGo rest
    else some pt

/-- `guess_artist_from_path` from playlist_scan_safe.py lines 54-72; the
argument is `path.parts` without the filename, outermost first. -/
def guess_artist_from_path (dirSegs : List (List Char)) : Option (List Char) :=
  guessArtistGo dirSegs.reverse

example : guess_artist_from_path [cs "/", cs "Music", cs "Radiohead", cs "1997", cs "CD1"]
    = some (cs "Radiohead") := by rfl

/-- The result of one mutagen read: stream duration and the (title,
artist) pair produced by read_easy_tags or read_raw_tags.  The mutagen
library itself is external; its per-file results are inputs of the model,
and a file that raises on open is a `none` read. -/
structure TagRead where
  dur : Option Int
  title : Option (List Char)
  artist : Option (List Char)
deriving DecidableEq

/-- One file encountered by the directory walk. -/
structure AudioFile where
  path : List Char
  ext : List Char
  stem : List Char
  dirSegs : List (List Char)
  easy : Option TagRead
  raw : Option TagRead
deriving DecidableEq

/-- One record of the produced music index. -/
structure IndexItem where
  path : List Char
  duration : Int
  title : List Char
  artist : Option (List Char)
  meta_source : List Char
deriving DecidableEq

/-- Python string truthiness for an optional string. -/
def truthyOpt (o : Option (List Char)) : Bool :=
  match o with | some v => !v.isEmpty | none => false

/-- The per-file body of scan_folder (playlist_scan_safe.py lines
140-195), after the extension test: `none` when the file is counted as
skipped_no_duration, otherwise the produced index item. -/
def scanFile (f : AudioFile) : Option IndexItem :=
  let dur1 : Option Int := match f.easy with | some e => e.dur | none => none
  let tam1 : Option (List Char) × Option (List Char) × List Char :=
    match f.easy with
    | some e =>
      if truthyOpt e.title || truthyOpt e.artist then (e.title, e.artist, cs "easy_tag")
      else (none, none, cs "none")
    | none => (none, none, cs "none")
  let title1 := tam1.1
  let artist1 := tam1.2.1
  let meta1 := tam1.2.2
  let second : Option Int × Option (List Char) × Option (List Char) × List Char :=
    if dur1.isNone || meta1 == cs "none" then
      match f.raw with
      | some rw =>
        let durx := match dur1 with | none => rw.dur | some d => some d
        if meta1 == cs "none" then
          (if truthyOpt rw.title || truthyOpt rw.artist
           then (durx, rw.title, rw.artist, cs "raw_tag")
           else (durx, title1, artist1, meta1))
        else (durx, title1, artist1, meta1)
      | none => (dur1, title1, artist1, meta1)
    else (dur1, title1, artist1, meta1)
  match second.1 with
  | none => none
  | some d =>
    let title2 := second.2.1
    let artist2 := second.2.2.1
    let meta2 := second.2.2.2
    let tm3 : List Char × List Char :=
      if truthyOpt title2 then (title2.getD [], meta2)
      else (clean_filename_title f.stem,
            if meta2 == cs "none" then cs "filename" else meta2)
    let am4 : Option (List Char) × List Char :=
      if truthyOpt artist2 then (artist2, tm3.2)
      else
        match guess_artist_from_path f.dirSegs with
        | some ag =>
          (some ag,
           if tm3.2 == cs "filename" || tm3.2 == cs "none" then cs "path_guess"
           else tm3.2)
        | none => (artist2, tm3.2)
    some ⟨f.path, d, tm3.1, am4.1, am4.2⟩

/-- The counters and items of one scan_folder run. -/
structure ScanStats where
  scanned : Nat
  skipped : Nat
  items : List IndexItem
deriving DecidableEq

/-- `scan_folder` from playlist_scan_safe.py lines 127-203, over the files
the walk encounters: unsupported extensions are not counted, every other
file yields an item or a skip. -/
def scan_folder : List AudioFile → ScanStats
  | [] => ⟨0, 0, []⟩
  | f :: rest =>
    if !SUPPORTED_EXTS.contains (f.ext.map Char.toLower) then scan_folder rest
    else
      match scanFile f with
      | some item =>
        let r := scan_folder rest
        ⟨r.scanned + 1, r.skipped, item :: r.items⟩
      | none =>
        let r := scan_folder rest
        ⟨r.scanned + 1, r.skipped + 1, r.items⟩

/-- `scan_multiple_roots` (playlist_scan_safe.py lines 240-256): summed
counters, concatenated items, indexed = number of combined items. -/
def scan_multiple_roots : List (List AudioFile) → ScanStats
  | [] => ⟨0, 0, []⟩
  | root :: roots =>
    let res := scan_folder root
    let rest := scan_multiple_roots roots
    ⟨res.scanned + rest.scanned, res.skipped + rest.skipped, res.items ++ rest.items⟩

/-- The aggregation of `scan_index` (core/runner.py lines 78-94): per-root
scan_folder results summed into the stats, items concatenated, indexed =
total item count. -/
def scan_index : List (List AudioFile) → ScanStats
  | [] => ⟨0, 0, []⟩
  | root :: roots =>
    let res := scan_folder root
    let rest := scan_index roots
    ⟨res.scanned + rest.scanned, res.skipped + rest.skipped, res.items ++ rest.items⟩

/- ------------------------------------------------------------------ -/
/- Helper lemmas                                                       -/
/- ------------------------------------------------------------------ -/

theorem buckets_key (idx : List RawItem) (k : Int) (e : Entry)
    (h : (k, e) ∈ buckets idx) : e.duration = k := by
  rw [buckets, List.mem_filterMap] at h
  obtain ⟨it, _, hf⟩ := h
  cases h1 : norm it.title <;> rw [h1] at hf
  · simp at hf
  cases h2 : norm it.artist <;> rw [h2] at hf
  · simp at hf
  cases h3 : it.duration <;> rw [h3] at hf
  · simp at hf
  cases h4 : it.path <;> rw [h4] at hf
  · simp at hf
  simp only [] at hf
  split at hf
  · simp at hf
  · obtain ⟨hk, he⟩ := Prod.mk.injEq .. ▸ (Option.some.inj hf)
    subst hk
    rw [← he]

theorem mem_byDurGet (idx : List RawItem) (d : Int) (e : Entry) :
    e ∈ byDurGet idx d ↔ (d, e) ∈ buckets idx := by
  rw [byDurGet, List.mem_filterMap]
  constructor
  · rintro ⟨⟨k, e'⟩, hmem, hf⟩
    by_cases hk : k = d
    · subst hk
      simp at hf
      subst hf
      exact hmem
    · simp [hk] at hf
  · intro hmem
    exact ⟨(d, e), hmem, by simp⟩

/-- C2 (amended): the candidate set searched by find_matches is exactly
the set of bucket-indexed entries whose duration lies in the inclusive
window `[dur - tol, dur + tol]`: an entry at distance exactly `tol` is
inside, one at distance `tol + 1` is outside, and no bucket-indexed entry
inside the window is excluded.  Not every indexed entry is bucket-indexed:
the bucket construction drops any index entry whose normalized title or
artist is absent, whose duration is missing, or whose path is missing or
empty, so such an entry is excluded from every candidate set even when
its duration lies inside the window. -/
theorem find_matches_duration_window (idx : List RawItem) (tol : Nat) (dur : Int)
    (e : Entry) :
    e ∈ candList idx tol dur ↔
      ((e.duration, e) ∈ buckets idx ∧
        dur - tol ≤ e.duration ∧ e.duration ≤ dur + tol) := by
  rw [candList, List.mem_flatMap]
  constructor
  · rintro ⟨k, hk, hmem⟩
    rw [List.mem_range] at hk
    have hbk := (mem_byDurGet idx _ e).1 hmem
    have hdur := buckets_key idx _ e hbk
    refine ⟨by rw [hdur]; exact hbk, ?_, ?_⟩ <;> rw [hdur] <;> omega
  · rintro ⟨hbk, h1, h2⟩
    refine ⟨(e.duration - (dur - tol)).toNat, ?_, ?_⟩
    · rw [List.mem_range]; omega
    · rw [mem_byDurGet]
      have : dur - ↑tol + ↑(e.duration - (dur - ↑tol)).toNat = e.duration := by omega
      rw [this]
      exact hbk
/-- C3: find_matches returns the exact tier when it is a singleton, the
whole exact tier (without falling through to the fuzzy tier) when it has
more than one element, and the fuzzy tier (exact artist plus Jaccard 0.85
with an artist, title-only Jaccard 0.90 without) only when the exact tier
is empty. -/
theorem find_matches_tiers (idx : List RawItem) (tol : Nat) (t : List Char)
    (a : Option (List Char)) (dur : Int) (ht : t ≠ []) :
    (((candList idx tol dur).filter (exactPred t a)).length = 1 →
        find_matches idx tol (some t) a dur =
          (candList idx tol dur).filter (exactPred t a)) ∧
    (1 < ((candList idx tol dur).filter (exactPred t a)).length →
        find_matches idx tol (some t) a dur =
          (candList idx tol dur).filter (exactPred t a)) ∧
    ((candList idx tol dur).filter (exactPred t a) = [] →
        find_matches idx tol (some t) a dur =
          (candList idx tol dur).filter (fuzzyPred t a)) := by
  have hte : t.isEmpty = false := by
    cases t with
    | nil => exact absurd rfl ht
    | cons c r => rfl
  refine ⟨?_, ?_, ?_⟩ <;> intro h <;> rw [find_matches] <;> simp only [hte]
  · by_cases hc : (candList idx tol dur).isEmpty
    · rw [List.isEmpty_iff] at hc
      rw [hc] at h
      simp at h
    · simp only [hc, Bool.false_or, Bool.or_false, if_false]
      rw [h]
      simp
  · by_cases hc : (candList idx tol dur).isEmpty
    · rw [List.isEmpty_iff] at hc
      rw [hc] at h
      simp at h
    · simp only [hc, Bool.false_or, Bool.or_false, if_false]
      have h1 : (((candList idx tol dur).filter (exactPred t a)).length == 1) = false := by
        simp; omega
      rw [h1]
      simp only [if_false, Bool.false_eq_true]
      rw [if_pos]
      simp only [gt_iff_lt]
      omega
  · by_cases hc : (candList idx tol dur).isEmpty
    · rw [List.isEmpty_iff] at hc
      rw [hc]
      simp
    · simp only [hc, Bool.false_or, Bool.or_false, if_false]
      rw [h]
      simp
/-- A one-entry index for concrete witnesses. -/
def oneIdx : List RawItem :=
  [⟨some (cs "Song"), some (cs "Artist"), some 200, some (cs "/m/a.mp3")⟩]

/-- Witness for find_matches_tiers: at a concrete one-entry index the
exact tier is a singleton and find_matches returns exactly it. -/
theorem find_matches_tiers_witness :
    cs "song" ≠ [] ∧
    ((candList oneIdx 2 200).filter (exactPred (cs "song") (some (cs "artist")))).length = 1 ∧
    find_matches oneIdx 2 (some (cs "song")) (some (cs "artist")) 200 =
      (candList oneIdx 2 200).filter (exactPred (cs "song") (some (cs "artist"))) :=
  ⟨by decide, by decide,
    (find_matches_tiers oneIdx 2 (cs "song") (some (cs "artist")) 200 (by decide)).1
      (by decide)⟩
/-- C5: classify_status maps by case-insensitive keyword containment in
priority order resolved, ambiguous, failed: MULTI_MATCH_3 is AMBIGUOUS,
NOT_FOUND_IN_LIB is FAILED, done_ok is RESOLVED; an unmatched status such
as PENDING is unknown (the empty kind) and its row appears in neither list
of the unresolved view, instead of defaulting to FAILED. -/
theorem classify_status_keywords :
    classify_status (cs "MULTI_MATCH_3") = cs "AMBIGUOUS" ∧
    classify_status (cs "NOT_FOUND_IN_LIB") = cs "FAILED" ∧
    classify_status (cs "done_ok") = cs "RESOLVED" ∧
    classify_status (cs "PENDING") = [] ∧
    classify_status (cs "PENDING") ≠ cs "FAILED" ∧
    classify_for_ui (read_report_rows [[(cs "status", cs "PENDING"),
                      (cs "original_path", cs "/a.mp3")]]) = ([], []) ∧
    classify_for_ui (read_report_rows [[(cs "status", cs "MULTI_MATCH_3"),
                      (cs "original_path", cs "/a.mp3")]]) =
      ([⟨0, [], cs "/a.mp3", [], []⟩], []) ∧
    classify_for_ui (read_report_rows [[(cs "status", cs "NOT_FOUND_IN_LIB"),
                      (cs "original_path", cs "/a.mp3")]]) =
      ([], [⟨0, [], cs "/a.mp3", [], []⟩]) ∧
    classify_for_ui (read_report_rows [[(cs "status", cs "done_ok"),
                      (cs "original_path", cs "/a.mp3")]]) = ([], []) := by
  refine ⟨by decide, by decide, by decide, by decide, by decide, ?_, ?_, ?_, ?_⟩ <;> decide
/-- C7 (amended): jaccard is symmetric; jaccard(x,x) = 1 for every x whose
token set is non-empty (not every non-empty string: a string of pure
separators has an empty token set and scores 0 against itself); and
jaccard is 0 whenever either argument is empty or absent. -/
theorem jaccard_properties :
    (∀ a b, jaccard a b = jaccard b a) ∧
    (∀ x, tokens x ≠ ∅ → jaccard x x = 1) ∧
    (∀ a b, (a = none ∨ a = some [] ∨ b = none ∨ b = some []) →
        jaccard a b = 0) := by
  refine ⟨?_, ?_, ?_⟩
  · intro a b
    simp only [jaccard]
    by_cases h : tokens a = ∅ ∨ tokens b = ∅
    · rw [if_pos h, if_pos h.symm]
    · have h2 : ¬(tokens b = ∅ ∨ tokens a = ∅) := fun hh => h hh.symm
      have hc : ¬((tokens a ∪ tokens b).card = 0) := by
        intro hc
        exact h (Or.inl (Finset.union_eq_empty.1 (Finset.card_eq_zero.1 hc)).1)
      have hc2 : ¬((tokens b ∪ tokens a).card = 0) := by
        rw [Finset.union_comm]; exact hc
      rw [if_neg h, if_neg h2, if_neg hc, if_neg hc2,
        Finset.inter_comm, Finset.union_comm]
  · intro x hx
    simp only [jaccard, or_self, if_neg hx]
    rw [Finset.inter_self, Finset.union_self]
    rw [if_neg (by simp [Finset.card_eq_zero, hx])]
    rw [Rat.mkRat_eq_div]
    refine div_self ?_
    have h := Finset.card_pos.2 (Finset.nonempty_iff_ne_empty.2 hx)
    exact_mod_cast Nat.pos_iff_ne_zero.1 h
  · rintro a b (rfl | rfl | rfl | rfl) <;> simp [jaccard, tokens]
/-- Witness for jaccard_properties: discharging the non-empty-token-set
hypothesis at a concrete string. -/
theorem jaccard_properties_witness :
    tokens (some (cs "hello world")) ≠ ∅ ∧
    jaccard (some (cs "hello world")) (some (cs "hello world")) = 1 :=
  ⟨by decide, jaccard_properties.2.1 (some (cs "hello world")) (by decide)⟩

/-- Counterexample to C7 as stated: the non-empty string of a single
hyphen tokenizes to the empty set, so its self-similarity is 0, not 1. -/
theorem jaccard_self_counterexample :
    cs "-" ≠ [] ∧ jaccard (some (cs "-")) (some (cs "-")) = 0 ∧
    jaccard (some (cs "-")) (some (cs "-")) ≠ 1 := ⟨by decide, by decide, by decide⟩
/-- C8: canonical_key collapses every generated filename variant of a
playlist to one identity (all four variants of stem 15 give 15), and
whenever stripping the generated markers leaves the empty string the
original stem is returned instead. -/
theorem canonical_key_collapses :
    canonical_key (stemOf (cs "15.m3u")) = cs "15" ∧
    canonical_key (stemOf (cs "fixed_15.m3u")) = cs "15" ∧
    canonical_key (stemOf (cs "fixed_15_selected.m3u")) = cs "15" ∧
    canonical_key (stemOf (cs "__tmp_fixed_15.m3u")) = cs "15" ∧
    (∀ stem0, (pyStrip (stripGenerated stem0)).isEmpty = true →
        canonical_key stem0 = stem0) := by
  refine ⟨by decide, by decide, by decide, by decide, ?_⟩
  intro stem0 h
  simp only [canonical_key, h, if_true]

/-- Witness for canonical_key_collapses: stripping the stem `fixed_`
leaves the empty string, so the original stem is returned. -/
theorem canonical_key_collapses_witness :
    (pyStrip (stripGenerated (cs "fixed_"))).isEmpty = true ∧
    canonical_key (cs "fixed_") = cs "fixed_" :=
  ⟨by decide, canonical_key_collapses.2.2.2.2 (cs "fixed_") (by decide)⟩
/-- C10: every supported file yields exactly one index item or one
skipped_no_duration count (a failed metadata read is a `none` tag result,
never a loss of the file), so scanned_supported = indexed +
skipped_no_duration for scan_folder, for the summed scan_multiple_roots
stats, and for the summed scan_index stats. -/
theorem scan_accounting :
    (∀ files : List AudioFile,
        (scan_folder files).scanned =
          (scan_folder files).items.length + (scan_folder files).skipped) ∧
    (∀ roots : List (List AudioFile),
        (scan_multiple_roots roots).scanned =
          (scan_multiple_roots roots).items.length + (scan_multiple_roots roots).skipped) ∧
    (∀ roots : List (List AudioFile),
        (scan_index roots).scanned =
          (scan_index roots).items.length + (scan_index roots).skipped) := by
  have hf : ∀ files : List AudioFile,
      (scan_folder files).scanned =
        (scan_folder files).items.length + (scan_folder files).skipped := by
    intro files
    induction files with
    | nil => rfl
    | cons f rest ih =>
      rw [scan_folder]
      cases hs : SUPPORTED_EXTS.contains (f.ext.map Char.toLower)
      · simpa using ih
      · cases h : scanFile f <;> simp [h] <;> omega
  have hm : ∀ roots : List (List AudioFile),
      (scan_multiple_roots roots).scanned =
        (scan_multiple_roots roots).items.length + (scan_multiple_roots roots).skipped := by
    intro roots
    induction roots with
    | nil => rfl
    | cons root rest ih =>
      rw [scan_multiple_roots]
      simp only [List.length_append]
      have := hf root
      omega
  have hi : ∀ roots : List (List AudioFile),
      (scan_index roots).scanned =
        (scan_index roots).items.length + (scan_index roots).skipped := by
    intro roots
    induction roots with
    | nil => rfl
    | cons root rest ih =>
      rw [scan_index]
      simp only [List.length_append]
      have := hf root
      omega
  exact ⟨hf, hm, hi⟩
theorem aget_aset_ne (r : CsvRow) (k0 k v : List Char) (hne : k ≠ k0) :
    aget (aset r k0 v) k = aget r k := by
  induction r with
  | nil => simp [aset, aget, Ne.symm hne]
  | cons kv rest ih =>
    obtain ⟨k1, v1⟩ := kv
    by_cases h1 : k1 = k0
    · subst h1
      simp [aset, aget, Ne.symm hne]
    · by_cases h2 : k1 = k
      · subst h2
        simp [aset, aget, h1]
      · simp [aset, aget, h1, h2, ih]

theorem pickFinalGo_aset_notes (r : CsvRow) (v : List Char) (ks : List (List Char))
    (hks : ∀ k ∈ ks, k ≠ cs "notes") :
    pickFinalGo (aset r (cs "notes") v) ks = pickFinalGo r ks := by
  induction ks with
  | nil => rfl
  | cons k rest ih =>
    rw [pickFinalGo, pickFinalGo, aget_aset_ne r (cs "notes") k v (hks k (by simp))]
    cases aget r k
    · exact ih (fun k hk => hks k (List.mem_cons_of_mem _ hk))
    · simp only []
      split
      · exact ih (fun k hk => hks k (List.mem_cons_of_mem _ hk))
      · rfl
/-- C4 (amended): a manual selection bound to the row_index wins over
everything, provided its value is a non-empty string (Python truthiness: a
selection whose value is the empty string is ignored and the row falls
back to status-based resolution); otherwise a resolved status emits the
first non-empty whitelist column with the original path as fallback, and
any other status emits the original path; the notes column is never
consulted by the whitelist probe. -/
theorem export_final_path_precedence (selections : List (List Char × List Char))
    (r : CsvRow) :
    (∀ v, exportRowIndex r ≠ [] → selections.lookup (exportRowIndex r) = some v →
        v ≠ [] → exportPathLine selections r = v) ∧
    ((exportRowIndex r = [] ∨ selections.lookup (exportRowIndex r) = none ∨
        selections.lookup (exportRowIndex r) = some []) →
      exportPathLine selections r =
        (if is_resolved_status (exportStatus r) then
          (if pick_final r = [] then exportOrig r else pick_final r)
         else exportOrig r)) ∧
    (∀ v, pick_final (aset r (cs "notes") v) = pick_final r) := by
  refine ⟨?_, ?_, ?_⟩
  · intro v hri hsel hv
    rw [exportPathLine]
    simp only [List.isEmpty_eq_true, hri, if_neg hri, hsel]
    simp [hv]
  · intro h
    rw [exportPathLine]
    rcases h with h | h | h
    · simp [h, List.isEmpty_eq_true]
    · by_cases hri : exportRowIndex r = []
      · simp [hri, List.isEmpty_eq_true]
      · simp [List.isEmpty_eq_true, hri, h]
    · by_cases hri : exportRowIndex r = []
      · simp [hri, List.isEmpty_eq_true]
      · simp [List.isEmpty_eq_true, hri, h]
  · intro v
    rw [pick_final, pick_final]
    exact pickFinalGo_aset_notes r v FINAL_KEYS (by decide)
/-- A concrete report row for the export theorems. -/
def c4row : CsvRow :=
  [(cs "row_index", cs "0"), (cs "status", cs "FAILED"),
   (cs "original_path", cs "/orig.mp3"), (cs "written_path", cs "/w.mp3")]

/-- Witness for export_final_path_precedence: a non-empty manual selection
is emitted verbatim, regardless of the FAILED status. -/
theorem export_final_path_precedence_witness :
    exportRowIndex c4row ≠ [] ∧
    List.lookup (exportRowIndex c4row) [(cs "0", cs "/sel.mp3")] = some (cs "/sel.mp3") ∧
    cs "/sel.mp3" ≠ [] ∧
    exportPathLine [(cs "0", cs "/sel.mp3")] c4row = cs "/sel.mp3" :=
  ⟨by decide, by decide, by decide,
    (export_final_path_precedence [(cs "0", cs "/sel.mp3")] c4row).1 (cs "/sel.mp3")
      (by decide) (by decide) (by decide)⟩

/-- Counterexample to C4 as stated: the selections map binds the row
index 0 to the empty string, yet the emitted path is the original path,
not the selected (empty) one — a falsy selection value is ignored. -/
theorem export_selection_empty_counterexample :
    List.lookup (exportRowIndex c4row) [(cs "0", ([] : List Char))] = some [] ∧
    exportPathLine [(cs "0", ([] : List Char))] c4row = cs "/orig.mp3" ∧
    cs "/orig.mp3" ≠ ([] : List Char) := ⟨by decide, by decide, by decide⟩
theorem vendor_rows_flatMap_eq_map (selections : List (List Char × List Char))
    (rrows : List Row) :
    ∀ i, (readRowsGo i (rrows.map rowToCsv)).flatMap (exportRowLines selections) =
      (readRowsGo i (rrows.map rowToCsv)).map (exportPathLine selections) := by
  intro i
  induction rrows generalizing i with
  | nil => rfl
  | cons r rest ih =>
    rw [List.map_cons, readRowsGo]
    simp only [List.flatMap_cons, List.map_cons]
    rw [ih]
    congr 1
/-- C9 (amended): an exported playlist always starts with `#EXTM3U` and
each report row contributes exactly one path line carrying its resolved
path, preceded by an EXTINF line only when the row carries a non-empty
`extinf_line` (or `extinf`) column; the reports produced by
repair_playlist carry no such column, so playlists exported from them
consist of the header and one path line per row, with no EXTINF lines. -/
theorem export_playlist_shape (selections : List (List Char × List Char)) :
    (∀ csvRows : List CsvRow,
        (export_fixed_lines selections csvRows).head? = some (cs "#EXTM3U")) ∧
    (∀ r : CsvRow,
        (pyStrip (orChain [aget r (cs "extinf_line"), aget r (cs "extinf")]) = [] →
          exportRowLines selections r = [exportPathLine selections r]) ∧
        (∀ e, pyStrip (orChain [aget r (cs "extinf_line"), aget r (cs "extinf")]) = e →
          e ≠ [] → exportRowLines selections r = [e, exportPathLine selections r])) ∧
    (∀ rrows : List Row,
        export_fixed_lines selections (rrows.map rowToCsv) =
          cs "#EXTM3U" ::
            (read_report_rows (rrows.map rowToCsv)).map (exportPathLine selections)) := by
  refine ⟨fun csvRows => rfl, ?_, ?_⟩
  · intro r
    constructor
    · intro h
      rw [exportRowLines]
      simp [h]
    · intro e he hne
      rw [exportRowLines]
      simp [he, hne]
  · intro rrows
    rw [export_fixed_lines, read_report_rows]
    rw [vendor_rows_flatMap_eq_map selections rrows 0]

/-- Counterexample to C9 as stated: repairing a playlist whose unit has an
EXTINF line produces a report without any extinf_line column, so the
export built from that report drops the EXTINF line entirely. -/
theorem export_extinf_lost_counterexample :
    isEXTINF (cs "#EXTINF:200,A - B") = true ∧
    export_fixed_lines []
      (((repair_playlist (fun _ => false) [] 2
          [cs "#EXTINF:200,A - B", cs "/gone.mp3"]).rows).map rowToCsv) =
      [cs "#EXTM3U", cs "/gone.mp3"] ∧
    ¬ isEXTINF (cs "/gone.mp3") = true ∧ ¬ isEXTINF (cs "#EXTM3U") = true := by
  refine ⟨by decide, by decide, by decide, by decide⟩
/-- A report row carrying an explicit extinf_line column. -/
def c9row : CsvRow :=
  [(cs "extinf_line", cs "#EXTINF:9,X"), (cs "status", cs "KEPT"),
   (cs "original_path", cs "/o.mp3"), (cs "written_path", cs "/o.mp3")]

/-- Witness for export_playlist_shape: a row with a non-empty extinf_line
column contributes that line followed by exactly one path line. -/
theorem export_playlist_shape_witness :
    pyStrip (orChain [aget c9row (cs "extinf_line"), aget c9row (cs "extinf")]) =
      cs "#EXTINF:9,X" ∧
    exportRowLines [] c9row = [cs "#EXTINF:9,X", exportPathLine [] c9row] :=
  ⟨by decide,
    ((export_playlist_shape []).2.1 c9row).2 (cs "#EXTINF:9,X") (by decide) (by decide)⟩
theorem handleUnit_kept (ex : List Char → Bool) (idx : List RawItem) (tol : Nat)
    (line path : List Char) (h : ex path = true) :
    handleUnit ex idx tol line path =
      ⟨cs "KEPT", (parse_extinf line).1, (parse_extinf line).2, path, path, []⟩ := by
  rw [handleUnit]
  simp [h]

theorem handleUnit_no_extinf (ex : List Char → Bool) (idx : List RawItem) (tol : Nat)
    (line path : List Char) (h : ex path = false)
    (hbad : (parse_extinf line).1 = none ∨
      (∃ d, (parse_extinf line).1 = some d ∧ d < 0) ∨
      (parse_extinf line).2 = none ∨ (parse_extinf line).2 = some []) :
    handleUnit ex idx tol line path =
      ⟨cs "FAILED_NO_EXTINF", (parse_extinf line).1, (parse_extinf line).2, path, path,
        cs "no duration or display"⟩ := by
  rw [handleUnit]
  simp only [h, Bool.false_eq_true, if_false]
  rw [if_pos]
  rcases hbad with h1 | ⟨d, h1, h2⟩ | h1 | h1
  · rw [h1]; simp
  · rw [h1]; simp only [Bool.or_eq_true, decide_eq_true_eq]
    exact Or.inl h2
  · rw [h1]; simp
  · rw [h1]; simp

theorem handleUnit_match (ex : List Char → Bool) (idx : List RawItem) (tol : Nat)
    (line path : List Char) (d : Int) (dsp : List Char) (h : ex path = false)
    (hd : (parse_extinf line).1 = some d) (hd0 : 0 ≤ d)
    (hdsp : (parse_extinf line).2 = some dsp) (hne : dsp ≠ []) :
    ((allMatchesFor idx tol d (candidate_pairs dsp)).length = 1 →
        handleUnit ex idx tol line path =
          ⟨cs "REPAIRED", some d, some dsp, path,
            ((allMatchesFor idx tol d (candidate_pairs dsp)).headD ⟨[], [], 0, []⟩).path,
            []⟩) ∧
    (1 < (allMatchesFor idx tol d (candidate_pairs dsp)).length →
        handleUnit ex idx tol line path =
          ⟨cs "AMBIGUOUS", some d, some dsp, path, path,
            candNote (allMatchesFor idx tol d (candidate_pairs dsp))⟩) ∧
    ((allMatchesFor idx tol d (candidate_pairs dsp)) = [] →
        handleUnit ex idx tol line path =
          ⟨cs "FAILED", some d, some dsp, path, path, cs "no match"⟩) := by
  have hdisp : dsp.isEmpty = false := by
    cases dsp with
    | nil => exact absurd rfl hne
    | cons c r => rfl
  refine ⟨?_, ?_, ?_⟩ <;> intro hl <;>
    simp only [handleUnit, h, hd, hdsp, hdisp, Bool.false_eq_true, if_false] <;>
    rw [if_neg (by simp only [Bool.or_false, decide_eq_true_eq]; omega)]
  · rw [if_pos (by simp [hl])]
  · rw [if_neg (by simp only [beq_iff_eq]; omega), if_pos (by exact hl)]
  · rw [if_neg (by simp [hl]), if_neg (by simp [hl])]
theorem repairGo_all_kept (ex : List Char → Bool) (idx : List RawItem) (tol : Nat) :
    ∀ (n : Nat) (lines : List (List Char)), lines.length ≤ n →
      (∀ i, i + 1 < lines.length → isEXTINF (lines.getD i []) = true →
        ex (lines.getD (i + 1) []) = true) →
      (repairGo ex idx tol lines).kept = (repairGo ex idx tol lines).total ∧
      (repairGo ex idx tol lines).repaired = 0 ∧
      (repairGo ex idx tol lines).ambiguous = 0 ∧
      (repairGo ex idx tol lines).failed = 0 ∧
      ∀ r ∈ (repairGo ex idx tol lines).rows, r.status = cs "KEPT" := by
  intro n
  induction n with
  | zero =>
    intro lines hlen _
    have : lines = [] := List.eq_nil_of_length_eq_zero (Nat.le_zero.1 hlen)
    subst this
    simp [repairGo]
  | succ n ih =>
    intro lines hlen hH
    match lines with
    | [] => simp [repairGo]
    | [l] => simp [repairGo, passLine]
    | l :: nxt :: rest =>
      by_cases hE : isEXTINF l = true
      · have hex : ex nxt = true := hH 0 (by simp) (by simpa using hE)
        have hrow := handleUnit_kept ex idx tol l nxt hex
        have hrest := ih rest (by simp at hlen; omega)
          (fun i h1 h2 => by
            have := hH (i + 2) (by simp at h1 ⊢; omega) (by simpa using h2)
            simpa using this)
        rw [repairGo, if_pos hE, hrow]
        obtain ⟨k1, k2, k3, k4, k5⟩ := hrest
        have b1 : (cs "KEPT" == cs "KEPT") = true := by decide
        have b2 : (cs "KEPT" == cs "REPAIRED") = false := by decide
        have b3 : (cs "KEPT" == cs "AMBIGUOUS") = false := by decide
        have b4 : ((cs "KEPT" == cs "FAILED") || (cs "KEPT" == cs "FAILED_NO_EXTINF")) =
            false := by decide
        refine ⟨?_, ?_, ?_, ?_, ?_⟩ <;>
          simp only [addUnit, List.mem_cons, b1, b2, b3, b4, if_true, if_false,
            Bool.false_eq_true]
        · omega
        · omega
        · omega
        · omega
        · rintro r (rfl | hr)
          · rfl
          · exact k5 r hr
      · have hrest := ih (nxt :: rest) (by simp at hlen ⊢; omega)
          (fun i h1 h2 => by
            have := hH (i + 1) (by simp at h1 ⊢; omega) (by simpa using h2)
            simpa using this)
        rw [repairGo, if_neg hE]
        simpa [passLine] using hrest
/-- C1 (amended): each EXTINF unit is processed as follows: an existing
path gives KEPT with the original path emitted; else a missing or negative
duration or empty display gives FAILED_NO_EXTINF with the original path;
else matches are accumulated over all candidate pairs — where a match is
skipped only when its path already occurs among matches accumulated from
previous pairs (duplicates inside a single result list are all kept) — with
a retry of every pair with artist forced absent only when nothing was
found; one accumulated match gives REPAIRED emitting the matched path,
more than one gives AMBIGUOUS emitting the original path with the first
five candidate paths in notes, zero gives FAILED emitting the original
path.  A playlist whose units all have existing paths yields KEPT
everywhere and zero REPAIRED, AMBIGUOUS or FAILED. -/
theorem repair_playlist_unit_behaviour (ex : List Char → Bool) (idx : List RawItem)
    (tol : Nat) :
    (∀ line path, ex path = true →
        handleUnit ex idx tol line path =
          ⟨cs "KEPT", (parse_extinf line).1, (parse_extinf line).2, path, path, []⟩) ∧
    (∀ line path, ex path = false →
        ((parse_extinf line).1 = none ∨
          (∃ d, (parse_extinf line).1 = some d ∧ d < 0) ∨
          (parse_extinf line).2 = none ∨ (parse_extinf line).2 = some []) →
        handleUnit ex idx tol line path =
          ⟨cs "FAILED_NO_EXTINF", (parse_extinf line).1, (parse_extinf line).2,
            path, path, cs "no duration or display"⟩) ∧
    (∀ line path d dsp, ex path = false →
        (parse_extinf line).1 = some d → 0 ≤ d →
        (parse_extinf line).2 = some dsp → dsp ≠ [] →
        ((allMatchesFor idx tol d (candidate_pairs dsp)).length = 1 →
            handleUnit ex idx tol line path =
              ⟨cs "REPAIRED", some d, some dsp, path,
                ((allMatchesFor idx tol d (candidate_pairs dsp)).headD
                  ⟨[], [], 0, []⟩).path, []⟩) ∧
        (1 < (allMatchesFor idx tol d (candidate_pairs dsp)).length →
            handleUnit ex idx tol line path =
              ⟨cs "AMBIGUOUS", some d, some dsp, path, path,
                candNote (allMatchesFor idx tol d (candidate_pairs dsp))⟩) ∧
        ((allMatchesFor idx tol d (candidate_pairs dsp)) = [] →
            handleUnit ex idx tol line path =
              ⟨cs "FAILED", some d, some dsp, path, path, cs "no match"⟩)) ∧
    (∀ lines : List (List Char),
        (∀ i, i + 1 < lines.length → isEXTINF (lines.getD i []) = true →
          ex (lines.getD (i + 1) []) = true) →
        (repair_playlist ex idx tol lines).kept = (repair_playlist ex idx tol lines).total ∧
        (repair_playlist ex idx tol lines).repaired = 0 ∧
        (repair_playlist ex idx tol lines).ambiguous = 0 ∧
        (repair_playlist ex idx tol lines).failed = 0 ∧
        ∀ r ∈ (repair_playlist ex idx tol lines).rows, r.status = cs "KEPT") := by
  refine ⟨handleUnit_kept ex idx tol, handleUnit_no_extinf ex idx tol, ?_, ?_⟩
  · intro line path d dsp h hd hd0 hdsp hne
    exact handleUnit_match ex idx tol line path d dsp h hd hd0 hdsp hne
  · intro lines hH
    exact repairGo_all_kept ex idx tol lines.length lines le_rfl hH

/-- An index with two identical entries (same path), as arises from
overlapping scan roots. -/
def dupIdx : List RawItem :=
  [⟨some (cs "Song"), some (cs "Artist"), some 200, some (cs "/m/a.mp3")⟩,
   ⟨some (cs "Song"), some (cs "Artist"), some 200, some (cs "/m/a.mp3")⟩]

/-- Counterexample to C1 as stated: with two identical index entries, the
accumulated match list contains the same path twice (the seen-set is not
updated inside one result list), so exactly one distinct path is matched
yet the unit is reported AMBIGUOUS, not REPAIRED as accumulation
deduplicated by path would give. -/
theorem repair_dedup_counterexample :
    ((allMatchesFor dupIdx 2 200 (candidate_pairs (cs "Song - Artist"))).map
        (fun e => e.path)).dedup.length = 1 ∧
    (repair_playlist (fun _ => false) dupIdx 2
        [cs "#EXTINF:200,Song - Artist", cs "/gone.mp3"]).repaired = 0 ∧
    (repair_playlist (fun _ => false) dupIdx 2
        [cs "#EXTINF:200,Song - Artist", cs "/gone.mp3"]).ambiguous = 1 ∧
    ((repair_playlist (fun _ => false) dupIdx 2
        [cs "#EXTINF:200,Song - Artist", cs "/gone.mp3"]).rows.map
          (fun r => r.status)) = [cs "AMBIGUOUS"] := by
  refine ⟨by decide, by decide, by decide, by decide⟩

/-- Witness for repair_playlist_unit_behaviour: an all-existing playlist
is entirely KEPT. -/
theorem repair_playlist_unit_behaviour_witness :
    (∀ i, i + 1 < ([cs "#EXTM3U", cs "#EXTINF:200,Song - Artist", cs "/m/a.mp3"]).length →
      isEXTINF (([cs "#EXTM3U", cs "#EXTINF:200,Song - Artist", cs "/m/a.mp3"]).getD i []) = true →
      (fun _ => true) (([cs "#EXTM3U", cs "#EXTINF:200,Song - Artist", cs "/m/a.mp3"]).getD (i + 1) []) = true) ∧
    (repair_playlist (fun _ => true) dupIdx 2
      [cs "#EXTM3U", cs "#EXTINF:200,Song - Artist", cs "/m/a.mp3"]).kept =
      (repair_playlist (fun _ => true) dupIdx 2
        [cs "#EXTM3U", cs "#EXTINF:200,Song - Artist", cs "/m/a.mp3"]).total :=
  ⟨fun _ _ _ => rfl,
    ((repair_playlist_unit_behaviour (fun _ => true) dupIdx 2).2.2.2
      [cs "#EXTM3U", cs "#EXTINF:200,Song - Artist", cs "/m/a.mp3"]
      (fun _ _ _ => rfl)).1⟩
theorem dropWhile_head_not (p : Char → Bool) :
    ∀ (l : List Char) (c : Char), (l.dropWhile p).head? = some c → p c = false := by
  intro l
  induction l with
  | nil => intro c h; simp at h
  | cons a rest ih =>
    intro c h
    rw [List.dropWhile_cons] at h
    by_cases hp : p a = true
    · rw [if_pos hp] at h
      exact ih c h
    · rw [if_neg hp] at h
      simp only [List.head?_cons, Option.some.injEq] at h
      subst h
      simpa using hp

theorem dropWhile_eq_self_of_head (p : Char → Bool) (l : List Char)
    (h : ∀ c, l.head? = some c → p c = false) : l.dropWhile p = l := by
  cases l with
  | nil => rfl
  | cons a rest => rw [List.dropWhile_cons, if_neg (by simp [h a rfl])]

theorem dropWhile_getLast (p : Char → Bool) :
    ∀ l : List Char, l.dropWhile p ≠ [] → (l.dropWhile p).getLast? = l.getLast? := by
  intro l
  induction l with
  | nil => intro h; simp at h
  | cons a rest ih =>
    intro h
    rw [List.dropWhile_cons] at h ⊢
    by_cases hp : p a = true
    · rw [if_pos hp] at h ⊢
      rw [ih h]
      have hrest : rest ≠ [] := by
        intro he
        rw [he] at h
        simp at h
      cases rest with
      | nil => exact absurd rfl hrest
      | cons b t => rw [List.getLast?_cons_cons]
    · rw [if_neg hp]

theorem pyStrip_getLast (l : List Char) (c : Char) (h : (pyStrip l).getLast? = some c) :
    pyIsSpace c = false := by
  rw [pyStrip, List.getLast?_reverse] at h
  exact dropWhile_head_not pyIsSpace _ c h

theorem pyStrip_head (l : List Char) (c : Char) (h : (pyStrip l).head? = some c) :
    pyIsSpace c = false := by
  rw [pyStrip, List.head?_reverse] at h
  have hne : (l.dropWhile pyIsSpace).reverse.dropWhile pyIsSpace ≠ [] := by
    intro he
    rw [he] at h
    simp at h
  rw [dropWhile_getLast pyIsSpace _ hne, List.getLast?_reverse] at h
  exact dropWhile_head_not pyIsSpace _ c h

theorem pyStrip_eq_self (l : List Char)
    (h1 : ∀ c, l.head? = some c → pyIsSpace c = false)
    (h2 : ∀ c, l.getLast? = some c → pyIsSpace c = false) : pyStrip l = l := by
  rw [pyStrip, dropWhile_eq_self_of_head pyIsSpace l h1,
    dropWhile_eq_self_of_head pyIsSpace l.reverse
      (fun c hc => h2 c (by rwa [List.head?_reverse] at hc)),
    List.reverse_reverse]

theorem pyStrip_idem (l : List Char) : pyStrip (pyStrip l) = pyStrip l :=
  pyStrip_eq_self (pyStrip l) (pyStrip_head l) (pyStrip_getLast l)

theorem pyStrip_sublist (l : List Char) : (pyStrip l).Sublist l := by
  have h1 : l.dropWhile pyIsSpace <:+ l := List.dropWhile_suffix pyIsSpace
  have h2 : (l.dropWhile pyIsSpace).reverse.dropWhile pyIsSpace <:+
      (l.dropWhile pyIsSpace).reverse := List.dropWhile_suffix pyIsSpace
  have h3 : pyStrip l <+: l.dropWhile pyIsSpace := by
    rw [← List.reverse_suffix, pyStrip, List.reverse_reverse]
    exact h2
  exact h3.sublist.trans h1.sublist

theorem pyStrip_subset (l : List Char) (c : Char) (h : c ∈ pyStrip l) : c ∈ l :=
  (pyStrip_sublist l).subset h
theorem featTryFT_subset (t r' : List Char) (h : featTryFT t = some r') :
    ∀ c ∈ r', c ∈ t := by
  intro c hc
  unfold featTryFT at h
  split at h
  · split at h
    · split at h
      · split at h
        · obtain rfl := Option.some.inj h
          simp [hc]
        · exact absurd h (by simp)
      · exact absurd h (by simp)
    · exact absurd h (by simp)
  · exact absurd h (by simp)

theorem featTry_subset (s r : List Char) (h : featTry s = some r) :
    ∀ c ∈ r, c ∈ s := by
  intro c hc
  unfold featTry at h
  split at h
  · split at h
    · split at h
      · split at h
        · obtain rfl := Option.some.inj h
          simp [hc]
        · exact featTryFT_subset _ _ h c hc
      · exact featTryFT_subset _ _ h c hc
    · exact featTryFT_subset _ _ h c hc
  · exact featTryFT_subset _ _ h c hc
theorem mem_featGoF : ∀ (fuel : Nat) (b : Bool) (s : List Char) (c : Char),
    c ∈ featGoF fuel b s → c ∈ s ∨ c ∈ cs "feat" := by
  intro fuel
  induction fuel with
  | zero => intro b s c hc; exact Or.inl hc
  | succ fuel ih =>
    intro b s c hc
    match s with
    | [] => simp [featGoF] at hc
    | a :: rest =>
      rw [featGoF] at hc
      by_cases hb : b = true
      · rw [if_pos hb] at hc
        rcases List.mem_cons.1 hc with rfl | hc2
        · exact Or.inl (by simp)
        · rcases ih _ _ _ hc2 with h | h
          · exact Or.inl (List.mem_cons_of_mem _ h)
          · exact Or.inr h
      · rw [if_neg hb] at hc
        cases hft : featTry (a :: rest) with
        | none =>
          rw [hft] at hc
          rcases List.mem_cons.1 hc with rfl | hc2
          · exact Or.inl (by simp)
          · rcases ih _ _ _ hc2 with h | h
            · exact Or.inl (List.mem_cons_of_mem _ h)
            · exact Or.inr h
        | some r =>
          rw [hft] at hc
          simp only [List.mem_cons] at hc
          rcases hc with rfl | rfl | rfl | rfl | hc2
          · exact Or.inr (by decide)
          · exact Or.inr (by decide)
          · exact Or.inr (by decide)
          · exact Or.inr (by decide)
          · rcases ih _ _ _ hc2 with h | h
            · exact Or.inl (featTry_subset _ _ hft c h)
            · exact Or.inr h

theorem mem_afterClose : ∀ (s : List Char) (c : Char), c ∈ afterClose s → c ∈ s := by
  intro s
  induction s with
  | nil => intro c hc; simp [afterClose] at hc
  | cons a rest ih =>
    intro c hc
    rw [afterClose] at hc
    split at hc
    · exact List.mem_cons_of_mem _ hc
    · exact List.mem_cons_of_mem _ (ih c hc)

theorem spanSplit_subset : ∀ (s pre suf : List Char),
    spanSplit s = some (pre, suf) →
    (∀ c ∈ pre, c ∈ s) ∧ (∀ c ∈ suf, c ∈ s) := by
  intro s
  induction s with
  | nil => intro pre suf h; simp [spanSplit] at h
  | cons a rest ih =>
    intro pre suf h
    rw [spanSplit] at h
    split at h
    · obtain ⟨rfl, rfl⟩ := Prod.mk.injEq .. ▸ Option.some.inj h
      exact ⟨by simp, fun c hc => List.mem_cons_of_mem _ (mem_afterClose rest c hc)⟩
    · split at h
      · obtain ⟨rfl, rfl⟩ := Prod.mk.injEq .. ▸ Option.some.inj h
        next pre' suf' hss =>
        obtain ⟨h1, h2⟩ := ih pre' suf' hss
        constructor
        · intro c hc
          rcases List.mem_cons.1 hc with rfl | hc2
          · simp
          · exact List.mem_cons_of_mem _ (h1 c hc2)
        · exact fun c hc => List.mem_cons_of_mem _ (h2 c hc)
      · exact absurd h (by simp)

theorem mem_removeSpansF : ∀ (fuel : Nat) (s : List Char) (c : Char),
    c ∈ removeSpansF fuel s → c ∈ s := by
  intro fuel
  induction fuel with
  | zero => intro s c hc; exact hc
  | succ fuel ih =>
    intro s c hc
    rw [removeSpansF] at hc
    cases hss : spanSplit s with
    | none => rw [hss] at hc; exact hc
    | some ps =>
      obtain ⟨pre, suf⟩ := ps
      rw [hss] at hc
      obtain ⟨h1, h2⟩ := spanSplit_subset s pre suf hss
      rcases List.mem_append.1 hc with hc1 | hc2
      · exact h1 c hc1
      · exact h2 c (ih suf c hc2)

theorem mem_collapseGo : ∀ (b : Bool) (s : List Char) (c : Char),
    c ∈ collapseGo b s → c ∈ s ∨ c = ' ' := by
  intro b s
  induction s generalizing b with
  | nil => intro c hc; simp [collapseGo] at hc
  | cons a rest ih =>
    intro c hc
    rw [collapseGo] at hc
    split at hc
    · split at hc
      · rcases ih true c hc with h | h
        · exact Or.inl (List.mem_cons_of_mem _ h)
        · exact Or.inr h
      · rcases List.mem_cons.1 hc with rfl | hc2
        · exact Or.inr rfl
        · rcases ih true c hc2 with h | h
          · exact Or.inl (List.mem_cons_of_mem _ h)
          · exact Or.inr h
    · rcases List.mem_cons.1 hc with rfl | hc2
      · exact Or.inl (by simp)
      · rcases ih false c hc2 with h | h
        · exact Or.inl (List.mem_cons_of_mem _ h)
        · exact Or.inr h
/-- A character on which every character-level step of norm is the
identity. -/
def cleanChar (c : Char) : Bool :=
  (dashFix c == c) && !apoChar c && (badPunctFix c == c) && (underscoreFix c == c)
    && (c.toLower == c)

theorem char_toNat_ofNat_valid (n : Nat) (h : n < 0xd800) : (Char.ofNat n).toNat = n := by
  rw [Char.ofNat, dif_pos (Or.inl h)]
  rfl

theorem cleanChar_lower_letter (m : Nat) (h1 : 97 ≤ m) (h2 : m ≤ 122) :
    cleanChar (Char.ofNat m) = true := by
  interval_cases m <;> decide

theorem cleanChar_toLower (c : Char)
    (h : ((dashFix c == c) && !apoChar c && (badPunctFix c == c)
      && (underscoreFix c == c)) = true) :
    cleanChar c.toLower = true := by
  rw [Char.toLower]
  by_cases hu : c.toNat ≥ 65 ∧ c.toNat ≤ 90
  · rw [if_pos hu]
    exact cleanChar_lower_letter (c.toNat + 32) (by omega) (by omega)
  · rw [if_neg hu]
    rw [cleanChar]
    simp only [Bool.and_eq_true] at h
    obtain ⟨⟨⟨hd, ha⟩, hb⟩, hu2⟩ := h
    simp only [Bool.and_eq_true]
    refine ⟨⟨⟨⟨hd, ha⟩, hb⟩, hu2⟩, ?_⟩
    rw [show c.toLower = c from by rw [Char.toLower, if_neg hu]]
    simp
theorem dashFix_idem (x : Char) : dashFix (dashFix x) = dashFix x := by
  by_cases h : (x == '–' || x == '—') = true
  · have hx : dashFix x = '-' := by rw [dashFix, if_pos h]
    rw [hx]
    decide
  · have hx : dashFix x = x := by rw [dashFix, if_neg h]
    rw [hx, hx]

theorem preClean_pipeline (s1 : List Char) (c : Char)
    (hc : c ∈ ((((s1.map dashFix).filter (fun c => !apoChar c)).map badPunctFix).map
        underscoreFix).map Char.toLower) :
    cleanChar c = true := by
  simp only [List.mem_map, List.mem_filter] at hc
  obtain ⟨u, ⟨v, ⟨w, ⟨⟨x, hx, rfl⟩, hapo⟩, rfl⟩, rfl⟩, rfl⟩ := hc
  apply cleanChar_toLower
  have hdash : dashFix (dashFix x) = dashFix x := dashFix_idem x
  by_cases hb : (dashFix x == '·' || dashFix x == '•' || dashFix x == '|') = true
  · have hbp : badPunctFix (dashFix x) = ' ' := by rw [badPunctFix, if_pos hb]
    rw [hbp]
    decide
  · have hbp : badPunctFix (dashFix x) = dashFix x := by rw [badPunctFix, if_neg hb]
    rw [hbp]
    by_cases hu : (dashFix x == '_' || dashFix x == '　') = true
    · have hug : underscoreFix (dashFix x) = ' ' := by rw [underscoreFix, if_pos hu]
      rw [hug]
      decide
    · have hug : underscoreFix (dashFix x) = dashFix x := by rw [underscoreFix, if_neg hu]
      rw [hug]
      simp only [Bool.and_eq_true, beq_iff_eq]
      exact ⟨⟨⟨hdash, by simpa using hapo⟩, hbp⟩, hug⟩

theorem norm_output_clean (x : Option (List Char)) (y : List Char)
    (h : norm x = some y) : ∀ c ∈ y, cleanChar c = true := by
  match x with
  | none => exact absurd h (by intro hh; exact Option.noConfusion hh)
  | some s0 =>
    replace h : normBody s0 = some y := h
    simp only [normBody, normChars] at h
    by_cases h0 : s0.isEmpty
    · rw [if_pos h0] at h
      exact absurd h (by simp)
    · rw [if_neg h0] at h
      split at h
      · exact absurd h (by simp)
      · obtain rfl := Option.some.inj h
        intro c hc
        have hc1 := pyStrip_subset _ c hc
        rcases mem_collapseGo false _ c hc1 with hc2 | rfl
        · have hc3 := mem_removeSpansF _ _ c hc2
          rcases mem_featGoF _ _ _ c hc3 with hc4 | hcf
          · exact preClean_pipeline (pyStrip s0) c hc4
          · have hcf2 : c ∈ ['f', 'e', 'a', 't'] := hcf
            simp only [List.mem_cons] at hcf2
            rcases hcf2 with rfl | rfl | rfl | rfl | h5
            · decide
            · decide
            · decide
            · decide
            · simp at h5
        · decide
/-- Is there an opening bracket followed (anywhere later) by a closing
bracket?  `_REMOVE_PARENS` has a match exactly when this holds. -/
def hoc : List Char → Bool
  | [] => false
  | c :: rest => (isOpenB c && rest.any isCloseB) || hoc rest

theorem spanSplit_none_iff (s : List Char) : spanSplit s = none ↔ hoc s = false := by
  induction s with
  | nil => simp [spanSplit, hoc]
  | cons a rest ih =>
    rw [spanSplit, hoc]
    by_cases h : (isOpenB a && rest.any isCloseB) = true
    · rw [if_pos h, h]
      simp
    · rw [if_neg h]
      simp only [Bool.not_eq_true] at h
      rw [h, Bool.false_or]
      rw [← ih]
      cases hss : spanSplit rest with
      | none => simp
      | some pr => obtain ⟨pre, suf⟩ := pr; simp

theorem spanSplit_any_close (s : List Char) (pre suf : List Char)
    (h : spanSplit s = some (pre, suf)) : s.any isCloseB = true := by
  induction s generalizing pre suf with
  | nil => simp [spanSplit] at h
  | cons a rest ih =>
    rw [spanSplit] at h
    split at h
    · next hcond =>
      rw [List.any_cons]
      simp only [Bool.and_eq_true] at hcond
      rw [hcond.2, Bool.or_true]
    · split at h
      · next pre' suf' hss =>
        rw [List.any_cons, ih pre' suf' hss, Bool.or_true]
      · exact absurd h (by simp)

theorem spanSplit_pre_noOpen (s : List Char) (pre suf : List Char)
    (h : spanSplit s = some (pre, suf)) : pre.any isOpenB = false := by
  induction s generalizing pre suf with
  | nil => simp [spanSplit] at h
  | cons a rest ih =>
    rw [spanSplit] at h
    split at h
    · obtain ⟨rfl, rfl⟩ := Prod.mk.injEq .. ▸ Option.some.inj h
      rfl
    · next hcond =>
      split at h
      · next pre' suf' hss =>
        obtain ⟨rfl, rfl⟩ := Prod.mk.injEq .. ▸ Option.some.inj h
        rw [List.any_cons, ih pre' suf' hss, Bool.or_false]
        by_cases ho : isOpenB a = true
        · exfalso
          exact hcond (by rw [ho, spanSplit_any_close rest pre' suf' hss]; rfl)
        · simpa using ho
      · exact absurd h (by simp)

theorem hoc_append (a b : List Char) :
    hoc (a ++ b) = (hoc a || (a.any isOpenB && b.any isCloseB) || hoc b) := by
  induction a with
  | nil => simp [hoc]
  | cons x rest ih =>
    rw [List.cons_append, hoc, ih, hoc, List.any_cons, List.any_append]
    cases isOpenB x <;> cases rest.any isOpenB <;> cases rest.any isCloseB <;>
      cases b.any isCloseB <;> cases hoc rest <;> cases hoc b <;> rfl

theorem hoc_of_noOpen (a : List Char) (h : a.any isOpenB = false) : hoc a = false := by
  induction a with
  | nil => rfl
  | cons x rest ih =>
    rw [List.any_cons] at h
    simp only [Bool.or_eq_false_iff] at h
    rw [hoc, h.1, ih h.2]
    rfl

theorem spanSplit_suf_length (s : List Char) (pre suf : List Char)
    (h : spanSplit s = some (pre, suf)) : suf.length < s.length := by
  have hac : ∀ t : List Char, t.any isCloseB = true → (afterClose t).length < t.length := by
    intro t
    induction t with
    | nil => intro ht; simp at ht
    | cons x rest ih =>
      intro ht
      rw [afterClose]
      by_cases hx : isCloseB x = true
      · rw [if_pos hx]
        simp
      · rw [if_neg hx]
        rw [List.any_cons] at ht
        simp only [Bool.or_eq_true] at ht
        rcases ht with ht | ht
        · exact absurd ht hx
        · exact Nat.lt_trans (ih ht) (by simp)
  induction s generalizing pre suf with
  | nil => simp [spanSplit] at h
  | cons a rest ih =>
    rw [spanSplit] at h
    split at h
    · next hcond =>
      obtain ⟨rfl, rfl⟩ := Prod.mk.injEq .. ▸ Option.some.inj h
      simp only [Bool.and_eq_true] at hcond
      exact Nat.lt_trans (hac rest hcond.2) (by simp)
    · split at h
      · next pre' suf' hss =>
        obtain ⟨rfl, rfl⟩ := Prod.mk.injEq .. ▸ Option.some.inj h
        exact Nat.lt_trans (ih pre' suf' hss) (by simp)
      · exact absurd h (by simp)

theorem hoc_removeSpansF : ∀ (fuel : Nat) (s : List Char), s.length ≤ fuel →
    hoc (removeSpansF fuel s) = false := by
  intro fuel
  induction fuel with
  | zero =>
    intro s hlen
    have : s = [] := List.eq_nil_of_length_eq_zero (Nat.le_zero.1 hlen)
    subst this
    rfl
  | succ fuel ih =>
    intro s hlen
    rw [removeSpansF]
    cases hss : spanSplit s with
    | none => exact (spanSplit_none_iff s).1 hss
    | some pr =>
      obtain ⟨pre, suf⟩ := pr
      have hpre := spanSplit_pre_noOpen s pre suf hss
      have hsuf := ih suf (by
        have := spanSplit_suf_length s pre suf hss
        omega)
      rw [hoc_append, hoc_of_noOpen pre hpre, hpre, hsuf]
      rfl

theorem hoc_removeSpans (s : List Char) : hoc (removeSpans s) = false :=
  hoc_removeSpansF s.length s le_rfl

theorem removeSpans_eq_self_of_hoc (s : List Char) (h : hoc s = false) :
    removeSpans s = s := by
  rw [removeSpans]
  cases hf : s.length with
  | zero => rfl
  | succ n =>
    rw [removeSpansF, ((spanSplit_none_iff s).2 h)]
theorem any_close_collapse : ∀ (b : Bool) (s : List Char),
    (collapseGo b s).any isCloseB = true → s.any isCloseB = true := by
  intro b s
  induction s generalizing b with
  | nil => intro h; simp [collapseGo] at h
  | cons a rest ih =>
    intro h
    rw [collapseGo] at h
    split at h
    · next hws =>
      split at h
      · rw [List.any_cons, ih true h, Bool.or_true]
      · rw [List.any_cons] at h
        simp only [Bool.or_eq_true] at h
        rcases h with h | h
        · exact absurd h (by decide)
        · rw [List.any_cons, ih true h, Bool.or_true]
    · rw [List.any_cons] at h ⊢
      simp only [Bool.or_eq_true] at h ⊢
      rcases h with h | h
      · exact Or.inl h
      · exact Or.inr (ih false h)

theorem hoc_collapse : ∀ (b : Bool) (s : List Char), hoc s = false →
    hoc (collapseGo b s) = false := by
  intro b s
  induction s generalizing b with
  | nil => intro _; rfl
  | cons a rest ih =>
    intro h
    rw [hoc] at h
    simp only [Bool.or_eq_false_iff, Bool.and_eq_false_iff] at h
    rw [collapseGo]
    split
    · split
      · exact ih true h.2
      · rw [hoc, ih true h.2, Bool.or_false,
          show isOpenB ' ' = false from rfl, Bool.false_and]
    · rw [hoc, ih false h.2, Bool.or_false]
      rcases h.1 with h1 | h1
      · rw [h1]
        rfl
      · cases ho : isOpenB a
        · rfl
        · rw [Bool.true_and]
          cases hcc : (collapseGo false rest).any isCloseB
          · rfl
          · rw [any_close_collapse false rest hcc] at h1
            exact absurd h1 (by simp)

theorem any_sublist (p : Char → Bool) (t s : List Char) (hsub : t.Sublist s)
    (h : s.any p = false) : t.any p = false := by
  cases ha : t.any p
  · rfl
  · exfalso
    rw [List.any_eq_true] at ha
    obtain ⟨c, hc, hpc⟩ := ha
    rw [List.any_eq_false] at h
    exact absurd hpc (by simpa using h c (hsub.subset hc))

theorem hoc_sublist (t s : List Char) (hsub : t.Sublist s) (h : hoc s = false) :
    hoc t = false := by
  induction hsub with
  | slnil => rfl
  | cons a hsub2 ih =>
    rw [hoc] at h
    simp only [Bool.or_eq_false_iff] at h
    exact ih h.2
  | cons₂ a hsub2 ih =>
    next t2 s2 =>
    rw [hoc] at h ⊢
    simp only [Bool.or_eq_false_iff, Bool.and_eq_false_iff] at h ⊢
    refine ⟨?_, ih h.2⟩
    rcases h.1 with h1 | h1
    · exact Or.inl h1
    · exact Or.inr (any_sublist isCloseB t2 s2 hsub2 h1)

theorem hoc_pyStrip (s : List Char) (h : hoc s = false) : hoc (pyStrip s) = false :=
  hoc_sublist (pyStrip s) s (pyStrip_sublist s) h
/-- No two adjacent whitespace characters. -/
def noWs2 (a b : Char) : Prop := ¬(pyIsSpace a = true ∧ pyIsSpace b = true)

theorem allWsSpace_collapse : ∀ (b : Bool) (s : List Char) (c : Char),
    c ∈ collapseGo b s → pyIsSpace c = true → c = ' ' := by
  intro b s
  induction s generalizing b with
  | nil => intro c hc; simp [collapseGo] at hc
  | cons a rest ih =>
    intro c hc hws
    rw [collapseGo] at hc
    split at hc
    · split at hc
      · exact ih true c hc hws
      · rcases List.mem_cons.1 hc with rfl | hc2
        · rfl
        · exact ih true c hc2 hws
    · rcases List.mem_cons.1 hc with rfl | hc2
      · next hna => exact absurd hws (by simp [hna])
      · exact ih false c hc2 hws

theorem collapseGo_true_head : ∀ (s : List Char) (c : Char),
    (collapseGo true s).head? = some c → pyIsSpace c = false := by
  intro s
  induction s with
  | nil => intro c hc; simp [collapseGo] at hc
  | cons a rest ih =>
    intro c hc
    rw [collapseGo] at hc
    split at hc
    · exact ih c hc
    · next hna =>
      simp only [List.head?_cons, Option.some.injEq] at hc
      subst hc
      simpa using hna

theorem chain_collapse : ∀ (b : Bool) (s : List Char),
    (collapseGo b s).Chain' noWs2 := by
  intro b s
  induction s generalizing b with
  | nil => simp [collapseGo]
  | cons a rest ih =>
    rw [collapseGo]
    split
    · split
      · exact ih true
      · rw [List.chain'_cons']
        refine ⟨?_, ih true⟩
        intro y hy
        intro hcon
        exact absurd hcon.2 (by simp [collapseGo_true_head rest y hy])
    · rw [List.chain'_cons']
      refine ⟨?_, ih false⟩
      intro y hy
      intro hcon
      next hna => exact absurd hcon.1 (by simpa using hna)

theorem collapse_eq_self : ∀ s : List Char,
    (∀ c ∈ s, pyIsSpace c = true → c = ' ') → s.Chain' noWs2 →
    (collapseGo false s = s ∧
      ((∀ c, s.head? = some c → pyIsSpace c = false) → collapseGo true s = s)) := by
  intro s
  induction s with
  | nil => intro _ _; exact ⟨rfl, fun _ => rfl⟩
  | cons a rest ih =>
    intro h1 h2
    rw [List.chain'_cons'] at h2
    obtain ⟨hhd, h2r⟩ := h2
    obtain ⟨ihf, iht⟩ := ih (fun c hc => h1 c (List.mem_cons_of_mem _ hc)) h2r
    constructor
    · rw [collapseGo]
      by_cases hws : pyIsSpace a = true
      · rw [if_pos hws]
        rw [if_neg (by simp)]
        have ha : a = ' ' := h1 a (by simp) hws
        rw [iht ?_]
        · rw [ha]
        · intro c hc
          cases hr : (rest.head?) with
          | none => rw [hr] at hc; exact absurd hc (by simp)
          | some y =>
            rw [hr] at hc
            obtain rfl := Option.some.inj hc
            have hy := hhd y (by rw [hr]; rfl)
            rw [noWs2] at hy
            cases hyc : pyIsSpace y
            · rfl
            · exact absurd ⟨hws, hyc⟩ hy
      · rw [if_neg hws, ihf]
    · intro hhead
      rw [collapseGo]
      have hws : pyIsSpace a = false := hhead a rfl
      rw [if_neg (by simp [hws]), ihf]
theorem map_eq_self_of_fix (f : Char → Char) :
    ∀ l : List Char, (∀ c ∈ l, f c = c) → l.map f = l := by
  intro l h
  induction l with
  | nil => rfl
  | cons a rest ih =>
    rw [List.map_cons, h a (by simp), ih (fun c hc => h c (List.mem_cons_of_mem _ hc))]

theorem chain_pyStrip (s : List Char) (h : s.Chain' noWs2) :
    (pyStrip s).Chain' noWs2 := by
  have h1 : (s.dropWhile pyIsSpace).Chain' noWs2 :=
    h.suffix (List.dropWhile_suffix pyIsSpace)
  have h3 : pyStrip s <+: s.dropWhile pyIsSpace := by
    rw [← List.reverse_suffix, pyStrip, List.reverse_reverse]
    exact List.dropWhile_suffix pyIsSpace
  exact List.Chain'.prefix h1 h3

theorem norm_output_props (x : Option (List Char)) (y : List Char)
    (h : norm x = some y) :
    y ≠ [] ∧ pyStrip y = y ∧ hoc y = false ∧
      (∀ c ∈ y, pyIsSpace c = true → c = ' ') ∧ y.Chain' noWs2 := by
  match x with
  | none => exact absurd h (by intro hh; exact Option.noConfusion hh)
  | some s0 =>
    replace h : normBody s0 = some y := h
    rw [normBody] at h
    by_cases h0 : s0.isEmpty
    · rw [if_pos h0] at h
      exact absurd h (by simp)
    · rw [if_neg h0] at h
      simp only [] at h
      split at h
      · exact absurd h (by simp)
      · next hne =>
        obtain rfl := Option.some.inj h
        refine ⟨by simpa using hne, pyStrip_idem _, ?_, ?_, ?_⟩
        · exact hoc_pyStrip _ (hoc_collapse false _ (hoc_removeSpans _))
        · intro c hc hws
          exact allWsSpace_collapse false _ c (pyStrip_subset _ c hc) hws
        · exact chain_pyStrip _ (chain_collapse false _)

/-- C6 (amended): norm is idempotent on every input whose normalized form
is a fixed point of the feat-token rewrite; removal of a bracketed span
can glue `feat.` or `ft.` to a following word character, in which case a
second application rewrites it and idempotence fails. -/
theorem norm_idempotent_unless_feat (x : Option (List Char)) (y : List Char)
    (hy : norm x = some y) (hfeat : featSub y = y) : norm (some y) = some y := by
  obtain ⟨hne, hstrip, hhoc, hws, hchain⟩ := norm_output_props x y hy
  have hclean := norm_output_clean x y hy
  have hEmpty : y.isEmpty = false := by
    cases y with
    | nil => exact absurd rfl hne
    | cons a rest => rfl
  have hcomp : ∀ c ∈ y, (dashFix c = c ∧ apoChar c = false) ∧
      badPunctFix c = c ∧ underscoreFix c = c ∧ c.toLower = c := by
    intro c hc
    have := hclean c hc
    rw [cleanChar] at this
    simp only [Bool.and_eq_true, beq_iff_eq, Bool.not_eq_true'] at this
    exact ⟨⟨this.1.1.1.1, this.1.1.1.2⟩, this.1.1.2, this.1.2, this.2⟩
  have hchars : normChars y = y := by
    rw [normChars, hstrip,
      map_eq_self_of_fix dashFix y (fun c hc => ((hcomp c hc).1).1),
      List.filter_eq_self.2 (fun c hc => by simp [((hcomp c hc).1).2]),
      map_eq_self_of_fix badPunctFix y (fun c hc => ((hcomp c hc).2).1),
      map_eq_self_of_fix underscoreFix y (fun c hc => ((hcomp c hc).2).2.1),
      map_eq_self_of_fix Char.toLower y (fun c hc => ((hcomp c hc).2).2.2)]
  show normBody y = some y
  rw [normBody, if_neg (by simp [hEmpty]), hchars, hfeat,
    removeSpans_eq_self_of_hoc y hhoc, (collapse_eq_self y hws hchain).1, hstrip,
    if_neg (by simp [hEmpty])]

/-- Witness for norm_idempotent_unless_feat at a concrete input whose
normal form has no feat-rewrite occurrence. -/
theorem norm_idempotent_witness :
    norm (some (cs "A (b) c")) = some (cs "a c") ∧
    featSub (cs "a c") = cs "a c" ∧
    norm (some (cs "a c")) = some (cs "a c") :=
  ⟨by decide, by decide,
    norm_idempotent_unless_feat (some (cs "A (b) c")) (cs "a c") (by decide) (by decide)⟩

/-- Counterexample to C6 as stated: removing the bracketed span in
`feat.(a)b` glues `feat.` to `b`, and only the second application of norm
rewrites the token, so norm(norm(x)) differs from norm(x). -/
theorem norm_idempotent_counterexample :
    norm (some (cs "feat.(a)b")) = some (cs "feat.b") ∧
    norm (norm (some (cs "feat.(a)b"))) = some (cs "featb") ∧
    norm (norm (some (cs "feat.(a)b"))) ≠ norm (some (cs "feat.(a)b")) :=
  ⟨by decide, by decide, by decide⟩
/-- An index entry with no artist tag, as the scanner legitimately
produces (a missing artist never drops a file from the index). -/
def artistlessItem : RawItem :=
  ⟨some (cs "Song"), none, some 200, some (cs "/m/a.mp3")⟩

/-- Counterexample to C2 as stated: an indexed entry whose duration 200
lies inside the window [198, 202] of a query at duration 200 with the
default tolerance 2, yet the candidate set searched by find_matches is
empty — the entry is excluded because its artist is absent, so it never
enters the duration-bucket map. -/
theorem duration_window_counterexample :
    artistlessItem.duration = some 200 ∧
    (200 : Int) - 2 ≤ 200 ∧ (200 : Int) ≤ 200 + 2 ∧
    candList [artistlessItem] 2 200 = [] ∧
    find_matches [artistlessItem] 2 (some (cs "song")) none 200 = [] := by
  refine ⟨by decide, by decide, by decide, by decide, by decide⟩
